import Mathlib

/-!
# scg-logger: sanitisation, trace correlation, context fields, levels

A shallow embedding of `utils/helpers.go`, `logger/otel.go`, `logger/context.go`,
`logger/config.go`, `logger/noop.go` and `logger/logger.go`, with the properties
the specification states about them.

Conventions of the embedding:

* a Go `[]any` is a `List GoAny`; the nil slice and the empty slice are both `[]`;
* a Go function that can panic (index out of range) returns `Option`, `none`
  being the panic; loops run on fuel and `none` also stands for exhausted fuel;
* a call of the underlying `*slog.Logger` is recorded as a `WriterCall`, and the
  line its handler writes for the call is given by its top-level keys;
* a nil context, a nil error, a nil map and a nil `contract.Logger` are `none`;
* a context holds its field map as a value (`Context`) or, where writes to
  shared map objects matter, as an address in a store (`RefContext`, `MapStore`).
-/

namespace ScgLogger

/-! ## Dynamic values -/

mutual
/-- Values of Go's `any` as far as the logger distinguishes them: the type switch
of `SanitizeKV` separates `string` from everything else, and `log/slog` separates
`string`, `slog.Attr`, the values it resolves to a group of attributes (an
`slog.Value` of kind group, a `[]slog.Attr`, a `LogValuer` that resolves to one)
and everything else. -/
inductive GoAny where
  | nil : GoAny
  | str (s : String) : GoAny
  | int (n : Int) : GoAny
  | bool (b : Bool) : GoAny
  | attr (key : String) (value : GoAny) : GoAny
  | group (members : GoAttrs) : GoAny
  | other (tag : Nat) : GoAny
/-- The attributes of a group value, in order. -/
inductive GoAttrs where
  | nil : GoAttrs
  | cons (key : String) (value : GoAny) (rest : GoAttrs) : GoAttrs
end

deriving instance DecidableEq for GoAny, GoAttrs

deriving instance Repr for GoAny, GoAttrs

deriving instance Inhabited for GoAny

namespace GoAny

/-- The test `x.(string)` succeeded. -/
def isString : GoAny → Bool
  | str _ => true
  | _ => false

end GoAny

/-! ## `utils.SanitizeKV` -/

/-- The type switch of `SanitizeKV`:
`switch k := key.(type) { case string: ks = k; default: ks = "" }`. -/
def keyString : GoAny → String
  | GoAny.str k => k
  | _ => ""

/-- The loop `for i := 0; i < pairs*two; i += two { ... out = append(out, ks, val) }`
of `SanitizeKV`, started at index `i` with accumulator `out`. Reading `kv[i]` or
`kv[i+1]` out of range is the panic `none`. -/
def sanitizeLoop (kv : List GoAny) (limit : Nat) : Nat → Nat → List GoAny → Option (List GoAny)
  | 0, _, _ => none
  | fuel + 1, i, out =>
    if i < limit then
      match kv[i]?, kv[i + 1]? with
      | some key, some val =>
        sanitizeLoop kv limit fuel (i + 2) (out ++ [GoAny.str (keyString key), val])
      | _, _ => none
    else some out

/-- The function `SanitizeKV` of `utils/helpers.go`. -/
def SanitizeKV (kv : List GoAny) : Option (List GoAny) :=
  if kv.length = 0 then some kv
  else
    let two := 2
    let pairs := kv.length / two
    match sanitizeLoop kv (pairs * two) (pairs + 1) 0 [] with
    | none => none
    | some out =>
      if kv.length % two ≠ 0 then
        some (out ++ [GoAny.str "kv_error", GoAny.str "odd_length"])
      else some out

/-! ## OpenTelemetry span contexts (`go.opentelemetry.io/otel/trace`) -/

/-- One byte. -/
abbrev Byte := Fin 256

/-- The table `hextable` of Go's `encoding/hex`. -/
def hextable : List Char :=
  ['0', '1', '2', '3', '4', '5', '6', '7', '8', '9', 'a', 'b', 'c', 'd', 'e', 'f']

/-- The character `hextable[n]`. -/
def hexDigit (n : Nat) : Char := hextable.getD n '0'

/-- Go's `hex.EncodeToString`: every byte `v` gives `hextable[v>>4]` and then
`hextable[v&0x0f]`. -/
def hexEncodeToString (src : List Byte) : String :=
  String.mk (src.flatMap fun v => [hexDigit (v.val >>> 4), hexDigit (v.val &&& 0x0f)])

/-- The type `trace.TraceID`, a `[16]byte`. -/
structure TraceID where
  bytes : List Byte
  size_eq : bytes.length = 16

/-- The type `trace.SpanID`, an `[8]byte`. -/
structure SpanID where
  bytes : List Byte
  size_eq : bytes.length = 8

/-- The method `TraceID.IsValid`: the identifier is not the all-zero one. -/
def TraceID.IsValid (t : TraceID) : Bool := !(t.bytes == List.replicate 16 (0 : Byte))

/-- The method `SpanID.IsValid`: the identifier is not the all-zero one. -/
def SpanID.IsValid (s : SpanID) : Bool := !(s.bytes == List.replicate 8 (0 : Byte))

/-- The method `TraceID.String`: the hex encoding of the sixteen bytes. -/
def TraceID.String (t : TraceID) : String := hexEncodeToString t.bytes

/-- The method `SpanID.String`: the hex encoding of the eight bytes. -/
def SpanID.String (s : SpanID) : String := hexEncodeToString s.bytes

/-- The identifiers of a `trace.SpanContext` (flags and trace state play no part
in the logger). -/
structure SpanContext where
  traceID : TraceID
  spanID : SpanID

/-- The zero `SpanContext{}`, which the no-op span of the tracing layer carries. -/
def SpanContext.zero : SpanContext :=
  ⟨⟨List.replicate 16 0, rfl⟩, ⟨List.replicate 8 0, rfl⟩⟩

/-- The method `SpanContext.HasTraceID`. -/
def SpanContext.HasTraceID (sc : SpanContext) : Bool := sc.traceID.IsValid

/-- The method `SpanContext.HasSpanID`. -/
def SpanContext.HasSpanID (sc : SpanContext) : Bool := sc.spanID.IsValid

/-! ## Field maps, loggers and contexts -/

/-- A non-nil Go `map[string]any`: finitely many entries with distinct keys. -/
abbrev FieldMap := AList (fun _ : String => GoAny)

/-- A Go `map[string]any` value; `none` is the nil map. -/
abbrev GoMap := Option FieldMap

/-- The length `len(m)`, which is `0` for the nil map. -/
def GoMap.len : GoMap → Nat
  | none => 0
  | some m => m.entries.length

/-- The entries a `range` over the map visits (none for the nil map). -/
def GoMap.entries : GoMap → List (Sigma fun _ : String => GoAny)
  | none => []
  | some m => m.entries

/-- The read `m[k]`, with `none` for an absent key. -/
def GoMap.get (m : GoMap) (k : String) : Option GoAny :=
  match m with
  | none => none
  | some m => m.lookup k

/-- The levels of `log/slog` the four emission methods use. -/
inductive Level where
  | debug | info | warn | error
  deriving DecidableEq, Repr

/-- An `slog.Attr`: a key and a value. -/
structure Attr where
  key : String
  value : GoAny
  deriving DecidableEq, Repr

/-- A non-nil `io.Writer`: the standard output or another sink. -/
inductive Writer where
  | stdout
  | other (id : Nat)
  deriving DecidableEq, Repr

/-- What this package fixes of the `*slog.Logger` it wraps: the minimum level and
source flag of the handler options, the handler kind (text for `pretty`, JSON
otherwise), the `io.Writer` handed to the handler (`none` is the nil writer), and
the attributes bound with `With`. -/
structure SlogCore where
  level : Level
  addSource : Bool
  pretty : Bool
  writer : Option Writer
  attrs : List Attr
  deriving DecidableEq, Repr

/-- The struct `slogLogger` of `logger/logger.go`. -/
structure slogLogger where
  core : SlogCore
  svc : String
  deriving DecidableEq, Repr

/-- The implementations of `contract.Logger` in this repository. -/
inductive Logger where
  | slog (l : slogLogger)
  | noop
  deriving DecidableEq, Repr

/-- The keys under which values are stored in a context: the two private keys of
package `logger`, the private span key of the tracing layer, and any other key. -/
inductive CtxKey where
  | loggerKey
  | logFieldsKey
  | currentSpanKey
  | user (n : Nat)
  deriving DecidableEq, Repr

/-- The values stored in a context, by dynamic type: a `map[string]interface{}`, a
`contract.Logger` (`none` is the nil interface), a `trace.Span` given by its span
context, or any other value. -/
inductive CtxVal where
  | fields (m : GoMap)
  | logger (l : Option Logger)
  | span (sc : SpanContext)
  | any (v : GoAny)

/-- A non-nil `context.Context`: a chain of key/value frames over the background
context. -/
inductive Context where
  | background
  | withValue (parent : Context) (key : CtxKey) (val : CtxVal)

/-- The lookup `ctx.Value(key)`: the value of the innermost frame with that key. `none` is
Go's nil result. -/
def Context.Value : Context → CtxKey → Option CtxVal
  | Context.background, _ => none
  | Context.withValue parent k v, key => if key = k then some v else parent.Value key

/-- The call `trace.SpanFromContext(ctx).SpanContext()`: the span stored in the context, the
no-op span with the zero span context otherwise. -/
def SpanFromContext (ctx : Context) : SpanContext :=
  match ctx.Value CtxKey.currentSpanKey with
  | some (CtxVal.span sc) => sc
  | _ => SpanContext.zero

/-! ## `addTraceKV` (`logger/otel.go`) -/

/-- The function `addTraceKV`; the nil context is `none`. -/
def addTraceKV (ctx : Option Context) (kv : List GoAny) : List GoAny :=
  match ctx with
  | none => kv
  | some c =>
    let sc := SpanFromContext c
    if !sc.HasTraceID || !sc.HasSpanID then kv
    else
      kv ++ [GoAny.str "trace_id", GoAny.str sc.traceID.String,
             GoAny.str "span_id", GoAny.str sc.spanID.String]

/-! ## The emission methods (`logger/logger.go`) -/

/-- A Go `error` value that is not nil, given by the text `Error()` returns. -/
structure GoError where
  Error : String
  deriving DecidableEq, Repr

/-- One call of `l.core.DebugContext`, `InfoContext`, `WarnContext` or
`ErrorContext`: the wrapped logger, the level of the method called, and the
context, message and arguments handed over. -/
structure WriterCall where
  core : SlogCore
  level : Level
  ctx : Option Context
  msg : String
  args : List GoAny

/-- The method `withCtx`. -/
def slogLogger.withCtx (_l : slogLogger) (ctx : Option Context) (kv : List GoAny) :
    Option Context × List GoAny :=
  (ctx, addTraceKV ctx kv)

/-- The method `DebugCtx`. -/
def slogLogger.DebugCtx (l : slogLogger) (ctx : Option Context) (msg : String)
    (kv : List GoAny) : Option WriterCall :=
  match SanitizeKV kv with
  | none => none
  | some kv =>
    let (ctx, kv) := l.withCtx ctx kv
    some ⟨l.core, Level.debug, ctx, msg, kv⟩

/-- The method `InfoCtx`. -/
def slogLogger.InfoCtx (l : slogLogger) (ctx : Option Context) (msg : String)
    (kv : List GoAny) : Option WriterCall :=
  match SanitizeKV kv with
  | none => none
  | some kv =>
    let (ctx, kv) := l.withCtx ctx kv
    some ⟨l.core, Level.info, ctx, msg, kv⟩

/-- The method `WarnCtx`. -/
def slogLogger.WarnCtx (l : slogLogger) (ctx : Option Context) (msg : String)
    (kv : List GoAny) : Option WriterCall :=
  match SanitizeKV kv with
  | none => none
  | some kv =>
    let (ctx, kv) := l.withCtx ctx kv
    some ⟨l.core, Level.warn, ctx, msg, kv⟩

/-- The value `slog.String(key, value)`, an `slog.Attr`. -/
def slogString (key value : String) : GoAny := GoAny.attr key (GoAny.str value)

/-- The method `ErrorCtx`; a nil `err` is `none`. -/
def slogLogger.ErrorCtx (l : slogLogger) (ctx : Option Context) (msg : String)
    (err : Option GoError) (kv : List GoAny) : Option WriterCall :=
  match SanitizeKV kv with
  | none => none
  | some kv =>
    let (ctx, kv) := l.withCtx ctx kv
    let kv := match err with
      | some e => kv ++ [slogString "error" e.Error]
      | none => kv
    some ⟨l.core, Level.error, ctx, msg, kv⟩

/-! ## How `log/slog` reads the arguments of a call -/

/-- The constant `badKey` of `log/slog`. -/
def badKey : String := "!BADKEY"

/-- The loop of `Record.Add` over `argsToAttr` in `log/slog`: a string followed by
another argument is a key and its value, an `slog.Attr` stands for itself, and a
lone trailing string or any other argument is filed under `badKey`. -/
def argsToAttrs : List GoAny → List Attr
  | [] => []
  | [GoAny.str x] => [⟨badKey, GoAny.str x⟩]
  | GoAny.str x :: v :: rest => ⟨x, v⟩ :: argsToAttrs rest
  | GoAny.attr k v :: rest => ⟨k, v⟩ :: argsToAttrs rest
  | x :: rest => ⟨badKey, x⟩ :: argsToAttrs rest

/-- The test `Value.isEmptyGroup` of `log/slog`: a group with no attributes. -/
def GoAny.isEmptyGroup : GoAny → Bool
  | GoAny.group GoAttrs.nil => true
  | _ => false

/-- The attributes `Record.Add` stores in the record of a call: those read from
the arguments, with the empty groups left out. -/
def WriterCall.recordAttrs (c : WriterCall) : List Attr :=
  (argsToAttrs c.args).filter fun a => !a.value.isEmptyGroup

mutual
/-- The method `appendAttr` of the handlers of `log/slog` (no `ReplaceAttr`, no
open group), for an attribute with the given key and resolved value: the keys it
writes at the top level of the line, and whether it reports the attribute as
written. The attribute with the empty key and the nil value is elided; a group
with attributes is written only when one of them is, inlined under the empty key,
and under another key as one nested object (JSON) or with the key and a dot before
the key of each member (text, `pretty`); any other attribute writes its key. -/
def appendAttr (pretty : Bool) (key : String) : GoAny → List String × Bool
  | GoAny.nil => if key = "" then ([], false) else ([key], true)
  | GoAny.group GoAttrs.nil => ([], true)
  | GoAny.group (GoAttrs.cons k v rest) =>
    let r := appendAttrs pretty (GoAttrs.cons k v rest)
    if !r.2 then ([], false)
    else if key = "" then (r.1, true)
    else if pretty then (r.1.map fun member => key ++ "." ++ member, true)
    else ([key], true)
  | _ => ([key], true)
/-- The method `appendAttrs` of the handlers of `log/slog` over the attributes of
a group: the keys written, and whether some attribute was reported as written. -/
def appendAttrs (pretty : Bool) : GoAttrs → List String × Bool
  | GoAttrs.nil => ([], false)
  | GoAttrs.cons k v rest =>
    let a := appendAttr pretty k v
    let r := appendAttrs pretty rest
    (a.1 ++ r.1, a.2 || r.2)
end

/-- The keys a handler writes at the top level of the line for a list of
attributes. -/
def writtenKeys (pretty : Bool) (attrs : List Attr) : List String :=
  attrs.flatMap fun a => (appendAttr pretty a.key a.value).1

/-- The built-in keys of a line: time, level, the source when the handler adds
it, and the message. -/
def builtinKeys (addSource : Bool) : List String :=
  ["time", "level"] ++ (if addSource then ["source"] else []) ++ ["msg"]

/-- The keys at the top level of the line the handler of the wrapped logger
writes for a call: the built-in keys, then the keys of the attributes bound on the
logger with `With`, then the keys of the attributes of the record. -/
def WriterCall.lineKeys (c : WriterCall) : List String :=
  builtinKeys c.core.addSource ++ writtenKeys c.core.pretty c.core.attrs
    ++ writtenKeys c.core.pretty c.recordAttrs

/-! ## `WithFields` (`logger/context.go`) -/

/-- The loop `for k, val := range m { base[k] = val }`. -/
def assignAll (base : FieldMap) (m : List (Sigma fun _ : String => GoAny)) : FieldMap :=
  m.foldl (fun b e => b.insert e.1 e.2) base

/-- The function `WithFields`; the nil context is `none`. -/
def WithFields (ctx : Option Context) (fields : GoMap) : Context :=
  let ctx := match ctx with
    | none => Context.background
    | some c => c
  if fields.len = 0 then ctx
  else
    let base : GoMap :=
      match ctx.Value CtxKey.logFieldsKey with
      | some (CtxVal.fields (some m)) => some (assignAll ∅ m.entries)
      | _ => none
    let base : FieldMap :=
      match base with
      | none => ∅
      | some b => b
    let base := assignAll base fields.entries
    Context.withValue ctx CtxKey.logFieldsKey (CtxVal.fields (some base))

/-- The field map a context carries: the value under `logFieldsKey` when it is a
`map[string]interface{}`, as `For` reads it; no map otherwise. -/
def Context.fieldMap (ctx : Context) : GoMap :=
  match ctx.Value CtxKey.logFieldsKey with
  | some (CtxVal.fields m) => m
  | _ => none

/-! ## Levels and the wrapped logger (`log/slog`) -/

/-- The integer of a level in `log/slog`: `LevelDebug = -4`, `LevelInfo = 0`,
`LevelWarn = 4`, `LevelError = 8`. -/
def Level.toInt : Level → Int
  | Level.debug => -4
  | Level.info => 0
  | Level.warn => 4
  | Level.error => 8

/-- The test `Enabled` of the JSON and text handlers of `log/slog`:
`l >= minLevel`. -/
def SlogCore.Enabled (c : SlogCore) (l : Level) : Bool := decide (c.level.toInt ≤ l.toInt)

/-- The wrapped logger builds and writes the record of a call when its handler
is enabled for the level of the call, and drops the call otherwise. -/
def WriterCall.emitted (c : WriterCall) : Bool := c.core.Enabled c.level

/-- The method `With` of `*slog.Logger`: the same logger for no arguments, else a
clone whose handler has the attributes read from the arguments appended. -/
def SlogCore.With (c : SlogCore) (args : List GoAny) : SlogCore :=
  if args.length = 0 then c
  else { c with attrs := c.attrs ++ argsToAttrs args }

/-! ## Configuration (`logger/config.go`) -/

/-- The struct `Config`; a nil `Writer` is `none`. -/
structure Config where
  Service : String
  Level : String
  Pretty : Bool
  WithCaller : Bool
  Writer : Option Writer

/-- The type `Option` of `logger/config.go`, a `func(*Config)`, as the change it
makes to the `Config` it is given; `none` is the nil function. -/
abbrev ConfigOption := Option (Config → Config)

/-- The option `WithService`. -/
def WithService (name : String) : ConfigOption :=
  some fun c => { c with Service := name }

/-- The option `WithLevel`. -/
def WithLevel (level : String) : ConfigOption :=
  some fun c => { c with Level := level }

/-- The option `WithPretty`. -/
def WithPretty (pretty : Bool) : ConfigOption :=
  some fun c => { c with Pretty := pretty }

/-- The option `WithCaller`. -/
def WithCaller (enabled : Bool) : ConfigOption :=
  some fun c => { c with WithCaller := enabled }

/-- The option `WithWriter`. -/
def WithWriter (w : Option Writer) : ConfigOption :=
  some fun c => { c with Writer := w }

/-- The function `applyOptions`. -/
def applyOptions (opts : List ConfigOption) : Config :=
  let cfg : Config :=
    { Service := "", Level := "info", Pretty := false, WithCaller := false,
      Writer := some Writer.stdout }
  let cfg := opts.foldl
    (fun cfg opt =>
      match opt with
      | some f => f cfg
      | none => cfg) cfg
  if cfg.Writer = none then { cfg with Writer := some Writer.stdout } else cfg

/-- The function `mapLevel`: the level, and the error (`none` for nil). -/
def mapLevel (lvl : String) : Level × Option GoError :=
  if lvl = "debug" then (Level.debug, none)
  else if lvl = "info" ∨ lvl = "" then (Level.info, none)
  else if lvl = "warn" ∨ lvl = "warning" then (Level.warn, none)
  else if lvl = "error" then (Level.error, none)
  else (Level.info, some ⟨"invalid log level: " ++ lvl⟩)

/-! ## Construction, `For` and the no-op logger (`logger/logger.go`, `logger/noop.go`) -/

/-- The function `New`. It returns a `contract.Logger`; `none` would be the nil
interface. -/
def New (opts : List ConfigOption) : Option Logger :=
  let cfg := applyOptions opts
  let (lvl, err) := mapLevel cfg.Level
  let lvl := match err with
    | some _ => Level.info
    | none => lvl
  let core : SlogCore := ⟨lvl, cfg.WithCaller, cfg.Pretty, cfg.Writer, []⟩
  let core := if cfg.Service ≠ "" then core.With [GoAny.str "service", GoAny.str cfg.Service]
    else core
  some (Logger.slog ⟨core, cfg.Service⟩)

/-- What `For` of `*slogLogger` returns: the receiver itself (`return l`), or a
pointer to a struct it has just allocated (`return &slogLogger{...}`). -/
inductive ForResult where
  | receiver
  | fresh (l : slogLogger)
  deriving DecidableEq, Repr

/-- The struct the result of `l.For` points to. -/
def ForResult.deref (l : slogLogger) : ForResult → slogLogger
  | ForResult.receiver => l
  | ForResult.fresh n => n

/-- The loop `for k, val := range m { attrs = append(attrs, k, val) }` of `For`,
run over the entries in the order the iteration visits them. -/
def fieldArgs (m : List (Sigma fun _ : String => GoAny)) : List GoAny :=
  m.foldl (fun attrs e => attrs ++ [GoAny.str e.1, e.2]) []

/-- The method `For` of `*slogLogger`. The order in which Go visits a map is not
fixed; the order of the entries of the map value stands for it. -/
def slogLogger.For (l : slogLogger) (ctx : Option Context) : ForResult :=
  match ctx with
  | none => ForResult.receiver
  | some c =>
    match c.Value CtxKey.logFieldsKey with
    | some (CtxVal.fields m) =>
      if m.len > 0 then
        let attrs := fieldArgs m.entries
        let core := l.core.With attrs
        ForResult.fresh ⟨core, l.svc⟩
      else ForResult.receiver
    | _ => ForResult.receiver

/-- The method `For` of `noopLogger`. -/
def noopLogger.For (_ctx : Option Context) : Logger := Logger.noop

/-- The method `DebugCtx` of `noopLogger`, by the calls of a writer it makes. -/
def noopLogger.DebugCtx (_ctx : Option Context) (_msg : String) (_kv : List GoAny) :
    List WriterCall := []

/-- The method `InfoCtx` of `noopLogger`, by the calls of a writer it makes. -/
def noopLogger.InfoCtx (_ctx : Option Context) (_msg : String) (_kv : List GoAny) :
    List WriterCall := []

/-- The method `WarnCtx` of `noopLogger`, by the calls of a writer it makes. -/
def noopLogger.WarnCtx (_ctx : Option Context) (_msg : String) (_kv : List GoAny) :
    List WriterCall := []

/-- The method `ErrorCtx` of `noopLogger`, by the calls of a writer it makes. -/
def noopLogger.ErrorCtx (_ctx : Option Context) (_msg : String) (_err : Option GoError)
    (_kv : List GoAny) : List WriterCall := []

/-- The function `getNoop`. -/
def getNoop : Option Logger := some Logger.noop

/-- The method `For` of a `contract.Logger`, by the logger value it returns. -/
def Logger.For : Logger → Option Context → Logger
  | Logger.slog l, ctx => Logger.slog ((l.For ctx).deref l)
  | Logger.noop, ctx => noopLogger.For ctx

/-- The method `DebugCtx` of a `contract.Logger`: the calls of a wrapped logger it
makes, `none` for a panic. -/
def Logger.DebugCtx : Logger → Option Context → String → List GoAny → Option (List WriterCall)
  | Logger.slog l, ctx, msg, kv => (l.DebugCtx ctx msg kv).map fun c => [c]
  | Logger.noop, ctx, msg, kv => some (noopLogger.DebugCtx ctx msg kv)

/-- The method `InfoCtx` of a `contract.Logger`. -/
def Logger.InfoCtx : Logger → Option Context → String → List GoAny → Option (List WriterCall)
  | Logger.slog l, ctx, msg, kv => (l.InfoCtx ctx msg kv).map fun c => [c]
  | Logger.noop, ctx, msg, kv => some (noopLogger.InfoCtx ctx msg kv)

/-- The method `WarnCtx` of a `contract.Logger`. -/
def Logger.WarnCtx : Logger → Option Context → String → List GoAny → Option (List WriterCall)
  | Logger.slog l, ctx, msg, kv => (l.WarnCtx ctx msg kv).map fun c => [c]
  | Logger.noop, ctx, msg, kv => some (noopLogger.WarnCtx ctx msg kv)

/-- The method `ErrorCtx` of a `contract.Logger`. -/
def Logger.ErrorCtx : Logger → Option Context → String → Option GoError → List GoAny →
    Option (List WriterCall)
  | Logger.slog l, ctx, msg, err, kv => (l.ErrorCtx ctx msg err kv).map fun c => [c]
  | Logger.noop, ctx, msg, err, kv => some (noopLogger.ErrorCtx ctx msg err kv)

/-- The function `MustInitDefault`: the `contract.Logger` it returns, or the
message of its panic. -/
def MustInitDefault (opts : List ConfigOption) : Except String (Option Logger) :=
  let l := New opts
  match l with
  | none => Except.error "logger initialization failed"
  | some _ => Except.ok l

/-! ## The logger registry (`logger/context.go`) -/

/-- The function `IntoContext`; the nil context and the nil logger are `none`. -/
def IntoContext (ctx : Option Context) (l : Option Logger) : Context :=
  let ctx := match ctx with
    | none => Context.background
    | some c => c
  Context.withValue ctx CtxKey.loggerKey (CtxVal.logger l)

/-- The function `FromContext`. It returns a `contract.Logger`; `none` would be the
nil interface. -/
def FromContext (ctx : Option Context) : Option Logger :=
  match ctx with
  | some c =>
    match c.Value CtxKey.loggerKey with
    | some (CtxVal.logger (some l)) => some l
    | _ => getNoop
  | none => getNoop

/-! ## `WithFields` on map objects

A Go map is a reference to a map object, and a write `base[k] = val` changes that
object for every holder of the reference. Here the map objects live in a store
and a context holds the address of its field map, so that what `WithFields` does
to the maps already stored can be stated. -/

/-- The map objects allocated so far; the address of an object is its index. -/
abbrev MapStore := List FieldMap

/-- The map a `map[string]any` value denotes: `none`, the nil map, for the nil
reference. -/
def MapStore.deref (h : MapStore) : Option Nat → GoMap
  | none => none
  | some a => h[a]?

/-- The values stored in a context, a `map[string]interface{}` by the address of
its map object (`none` is the nil map). -/
inductive RefVal where
  | mapRef (a : Option Nat)
  | logger (l : Option Logger)
  | span (sc : SpanContext)
  | any (v : GoAny)

/-- A non-nil `context.Context` whose values hold maps by reference. -/
inductive RefContext where
  | background
  | withValue (parent : RefContext) (key : CtxKey) (val : RefVal)

/-- The lookup `ctx.Value(key)`. -/
def RefContext.Value : RefContext → CtxKey → Option RefVal
  | RefContext.background, _ => none
  | RefContext.withValue parent k v, key => if key = k then some v else parent.Value key

/-- The field map a context carries, read in a store. -/
def RefContext.fieldMap (h : MapStore) (ctx : RefContext) : GoMap :=
  match ctx.Value CtxKey.logFieldsKey with
  | some (RefVal.mapRef a) => h.deref a
  | _ => none

/-- Every map reference a context holds is the nil reference or the address of
an object of the store. -/
def RefContext.allocated (h : MapStore) : RefContext → Bool
  | RefContext.background => true
  | RefContext.withValue parent _ (RefVal.mapRef (some a)) =>
    decide (a < h.length) && parent.allocated h
  | RefContext.withValue parent _ _ => parent.allocated h

/-- The stored value with its map read from the store. -/
def RefVal.resolve (h : MapStore) : RefVal → CtxVal
  | RefVal.mapRef a => CtxVal.fields (h.deref a)
  | RefVal.logger l => CtxVal.logger l
  | RefVal.span sc => CtxVal.span sc
  | RefVal.any v => CtxVal.any v

/-- The context with every map read from the store. -/
def RefContext.resolve (h : MapStore) : RefContext → Context
  | RefContext.background => Context.background
  | RefContext.withValue parent k v => Context.withValue (parent.resolve h) k (v.resolve h)

/-- The allocation `make(map[string]any, n)`: a new empty map object, and its
address. -/
def MapStore.make (h : MapStore) : MapStore × Nat := (h ++ [∅], h.length)

/-- The write `base[k] = val` to the map object at `base`; there must be one. -/
def MapStore.assign (h : MapStore) (base : Nat) (k : String) (val : GoAny) : Option MapStore :=
  match h[base]? with
  | some m => some (h.set base (m.insert k val))
  | none => none

/-- The loop `for k, val := range m { base[k] = val }` over the entries of `m`,
writing to the map object at `base`. -/
def assignAllRef (h : MapStore) (base : Nat) :
    List (Sigma fun _ : String => GoAny) → Option MapStore
  | [] => some h
  | e :: rest =>
    match h.assign base e.1 e.2 with
    | some h1 => assignAllRef h1 base rest
    | none => none

/-- The function `WithFields` run in a store of map objects: the store it leaves
and the context it returns; `none` when it reads or writes a map object that does
not exist. -/
def WithFieldsRef (h : MapStore) (ctx : Option RefContext) (fields : Option Nat) :
    Option (MapStore × RefContext) :=
  let ctx := match ctx with
    | none => RefContext.background
    | some c => c
  if (h.deref fields).len = 0 then some (h, ctx)
  else
    let copied : Option (MapStore × Option Nat) :=
      match ctx.Value CtxKey.logFieldsKey with
      | some (RefVal.mapRef (some a)) =>
        match h[a]? with
        | some m =>
          let (h1, base) := h.make
          match assignAllRef h1 base m.entries with
          | some h2 => some (h2, some base)
          | none => none
        | none => none
      | _ => some (h, none)
    match copied with
    | none => none
    | some (h1, base) =>
      let (h2, base) := match base with
        | none => h1.make
        | some b => (h1, b)
      match assignAllRef h2 base (h2.deref fields).entries with
      | some h3 =>
        some (h3, RefContext.withValue ctx CtxKey.logFieldsKey (RefVal.mapRef (some base)))
      | none => none

/-! ## Auxiliary definitions of the proofs -/

/-- The pairs the loop of `SanitizeKV` writes, read off the input list two elements
at a time (a device of the proofs). -/
def sanitizePairs : List GoAny → List GoAny
  | key :: val :: rest => GoAny.str (keyString key) :: val :: sanitizePairs rest
  | _ => []

/-- The marker pair appended for an input of odd length. -/
def oddMarker : List GoAny := [GoAny.str "kv_error", GoAny.str "odd_length"]

/-- The sequence has even length and a string at every even index. -/
def WellFormedKV (out : List GoAny) : Prop :=
  out.length % 2 = 0 ∧
    ∀ (i : Nat) (h : i < out.length), i % 2 = 0 → (out[i]).isString = true

/-- The four elements `addTraceKV` appends for a span context. -/
def traceKV (sc : SpanContext) : List GoAny :=
  [GoAny.str "trace_id", GoAny.str sc.traceID.String,
   GoAny.str "span_id", GoAny.str sc.spanID.String]

/-- The place of a level in the order debug < info < warn < error. -/
def Level.ord : Level → Nat
  | Level.debug => 0
  | Level.info => 1
  | Level.warn => 2
  | Level.error => 3

/-- The level string that names a level. -/
def Level.name : Level → String
  | Level.debug => "debug"
  | Level.info => "info"
  | Level.warn => "warn"
  | Level.error => "error"

/-- The emission method of `*slogLogger` for a level (`ErrorCtx` takes the error
argument, the other three ignore it). -/
def slogLogger.emit (l : slogLogger) (lvl : Level) (ctx : Option Context) (msg : String)
    (err : Option GoError) (kv : List GoAny) : Option WriterCall :=
  match lvl with
  | Level.debug => l.DebugCtx ctx msg kv
  | Level.info => l.InfoCtx ctx msg kv
  | Level.warn => l.WarnCtx ctx msg kv
  | Level.error => l.ErrorCtx ctx msg err kv

/-- The field map entry as the attribute `For` binds for it. -/
def entryAttr (e : Sigma fun _ : String => GoAny) : Attr := ⟨e.1, e.2⟩

/-- A field map with the one entry `trace_id = "abc"`. -/
def sampleFields : FieldMap := AList.insert "trace_id" (GoAny.str "abc") ∅

/-- A context that carries `sampleFields`. -/
def sampleContext : Context :=
  Context.withValue Context.background CtxKey.logFieldsKey (CtxVal.fields (some sampleFields))

/-- A default logger at level info with service name `svc`. -/
def sampleLogger : slogLogger :=
  ⟨⟨Level.info, false, false, some Writer.stdout, [⟨"service", GoAny.str "svc"⟩]⟩, "svc"⟩

/-- A store of two map objects: `sampleFields`, and a map with the entries
`user = "u1"` and `trace_id = "new"`. -/
def sampleStore : MapStore :=
  [sampleFields,
   AList.insert "user" (GoAny.str "u1") (AList.insert "trace_id" (GoAny.str "new") ∅)]

/-- A context whose field map is the first object of `sampleStore`. -/
def sampleRefContext : RefContext :=
  RefContext.withValue RefContext.background CtxKey.logFieldsKey (RefVal.mapRef (some 0))

/-- The options `logger/config.go` provides, by constructor and argument, and the
nil option. -/
inductive StdOption where
  | service (name : String)
  | level (level : String)
  | pretty (pretty : Bool)
  | caller (enabled : Bool)
  | writer (w : Option Writer)
  | nil

/-- The `Option` value an entry of an option list stands for. -/
def StdOption.toOption : StdOption → ConfigOption
  | StdOption.service n => WithService n
  | StdOption.level s => WithLevel s
  | StdOption.pretty b => WithPretty b
  | StdOption.caller b => WithCaller b
  | StdOption.writer w => WithWriter w
  | StdOption.nil => none

/-- The service name an option sets, if it sets one. -/
def StdOption.service? : StdOption → Option String
  | StdOption.service n => some n
  | _ => none

/-- The level string an option sets, if it sets one. -/
def StdOption.level? : StdOption → Option String
  | StdOption.level s => some s
  | _ => none

/-- The pretty flag an option sets, if it sets one. -/
def StdOption.pretty? : StdOption → Option Bool
  | StdOption.pretty b => some b
  | _ => none

/-- The caller flag an option sets, if it sets one. -/
def StdOption.caller? : StdOption → Option Bool
  | StdOption.caller b => some b
  | _ => none

/-- The writer an option sets, if it sets one (it may set the nil writer). -/
def StdOption.writer? : StdOption → Option (Option Writer)
  | StdOption.writer w => some w
  | _ => none

/-- The value the last option of the list that sets the field gives it; `none`
when no option of the list sets the field. -/
def lastSet {α : Type} (f : StdOption → Option α) (os : List StdOption) : Option α :=
  (os.filterMap f).getLast?

/-- The body of the loop of `applyOptions`: `if opt != nil { opt(&cfg) }`. -/
def applyOne (cfg : Config) (opt : ConfigOption) : Config :=
  match opt with
  | some f => f cfg
  | none => cfg

/-- The defaults `applyOptions` starts from: no service name, level `"info"`, JSON
output, no caller information, the standard output. -/
def defaultConfig : Config :=
  { Service := "", Level := "info", Pretty := false, WithCaller := false,
    Writer := some Writer.stdout }

/-- The last step of `applyOptions`: a nil writer becomes the standard output. -/
def writerOrStdout (cfg : Config) : Config :=
  if cfg.Writer = none then { cfg with Writer := some Writer.stdout } else cfg

/-- The attributes the key/value arguments of a call stand for: one for every key
that has a value after it, under the key itself when it is a string and under the
empty key otherwise. -/
def kvAttrs : List GoAny → List Attr
  | key :: val :: rest => ⟨keyString key, val⟩ :: kvAttrs rest
  | _ => []

/-! ## Lemmas on `SanitizeKV` -/

theorem sanitizePairs_short (l : List GoAny) (h : l.length ≤ 1) : sanitizePairs l = [] := by
  match l, h with
  | [], _ => rfl
  | [_], _ => rfl
  | _ :: _ :: _, h => simp at h

theorem sanitizeLoop_eq (kv : List GoAny) :
    ∀ (fuel i : Nat) (out : List GoAny), i % 2 = 0 → i ≤ kv.length →
      kv.length < i + 2 * fuel →
      sanitizeLoop kv (kv.length / 2 * 2) fuel i out
        = some (out ++ sanitizePairs (kv.drop i)) := by
  intro fuel
  induction fuel with
  | zero => intro i out _ h1 h2; omega
  | succ n ih =>
    intro i out hi h1 h2
    unfold sanitizeLoop
    by_cases hlt : i < kv.length / 2 * 2
    · have h3 : i + 1 < kv.length := by omega
      have h4 : i < kv.length := by omega
      have e1 : kv.drop i = kv[i] :: kv[i + 1] :: kv.drop (i + 2) := by
        rw [List.drop_eq_getElem_cons h4, List.drop_eq_getElem_cons h3]
      rw [if_pos hlt, List.getElem?_eq_getElem h4, List.getElem?_eq_getElem h3]
      simp only
      rw [ih (i + 2) _ (by omega) (by omega) (by omega), e1]
      simp [sanitizePairs]
    · rw [if_neg hlt, sanitizePairs_short _ (by simp; omega)]
      simp

theorem SanitizeKV_eq (kv : List GoAny) :
    SanitizeKV kv
      = some (sanitizePairs kv ++ if kv.length % 2 = 1 then oddMarker else []) := by
  unfold SanitizeKV
  by_cases h0 : kv.length = 0
  · have : kv = [] := List.length_eq_zero.mp h0
    subst this
    simp [sanitizePairs]
  · rw [if_neg h0]
    simp only
    rw [sanitizeLoop_eq kv _ 0 [] rfl (Nat.zero_le _) (by omega)]
    by_cases hodd : kv.length % 2 = 1
    · simp [hodd, oddMarker]
    · have : kv.length % 2 = 0 := by omega
      simp [this]

theorem sanitizePairs_length : ∀ kv : List GoAny,
    (sanitizePairs kv).length = kv.length / 2 * 2
  | [] => rfl
  | [_] => by simp [sanitizePairs]
  | _ :: _ :: rest => by
    simp only [sanitizePairs, List.length_cons, sanitizePairs_length rest]
    omega

theorem sanitizePairs_key : ∀ (p : Nat) (kv : List GoAny), 2 * p + 1 < kv.length →
    (sanitizePairs kv)[2 * p]? = (kv[2 * p]?).map fun k => GoAny.str (keyString k)
  | _, [], h => by simp at h
  | _, [_], h => by simp at h
  | 0, _ :: _ :: _, _ => by simp [sanitizePairs]
  | p + 1, _ :: _ :: rest, h => by
    have h2 : 2 * p + 1 < rest.length := by simp at h; omega
    have := sanitizePairs_key p rest h2
    have e : 2 * (p + 1) = 2 * p + 1 + 1 := by ring
    simp only [sanitizePairs, e, List.getElem?_cons_succ]
    exact this

theorem sanitizePairs_val : ∀ (p : Nat) (kv : List GoAny), 2 * p + 1 < kv.length →
    (sanitizePairs kv)[2 * p + 1]? = kv[2 * p + 1]?
  | _, [], h => by simp at h
  | _, [_], h => by simp at h
  | 0, _ :: _ :: _, _ => by simp [sanitizePairs]
  | p + 1, _ :: _ :: rest, h => by
    have h2 : 2 * p + 1 < rest.length := by simp at h; omega
    have := sanitizePairs_val p rest h2
    have e : 2 * (p + 1) + 1 = 2 * p + 1 + 1 + 1 := by ring
    simp only [sanitizePairs, e, List.getElem?_cons_succ]
    exact this

theorem sanitizePairs_dropLast : ∀ kv : List GoAny, kv.length % 2 = 1 →
    sanitizePairs kv.dropLast = sanitizePairs kv
  | [], h => by simp at h
  | [_], _ => rfl
  | a :: b :: rest, h => by
    have h2 : rest.length % 2 = 1 := by simp at h; omega
    have hne : rest ≠ [] := by intro e; subst e; simp at h2
    obtain ⟨c, t, rfl⟩ := List.exists_cons_of_ne_nil hne
    have := sanitizePairs_dropLast (c :: t) h2
    simp only [List.dropLast_cons₂, sanitizePairs] at this ⊢
    rw [this]

theorem sanitizePairs_get_even (kv : List GoAny) (i : Nat) (hev : i % 2 = 0)
    (hi : i + 1 < kv.length) :
    ∃ hlt : i < kv.length, (sanitizePairs kv)[i]? = some (GoAny.str (keyString kv[i])) := by
  obtain ⟨p, rfl⟩ : ∃ p, i = 2 * p := ⟨i / 2, by omega⟩
  refine ⟨by omega, ?_⟩
  rw [sanitizePairs_key p kv hi, List.getElem?_eq_getElem (by omega)]
  rfl

theorem sanitizePairs_get_odd (kv : List GoAny) (j : Nat) (hodd : j % 2 = 1)
    (hlen : kv.length % 2 = 0) : (sanitizePairs kv)[j]? = kv[j]? := by
  obtain ⟨p, rfl⟩ : ∃ p, j = 2 * p + 1 := ⟨j / 2, by omega⟩
  by_cases h : 2 * p + 1 < kv.length
  · exact sanitizePairs_val p kv h
  · rw [List.getElem?_eq_none (by rw [sanitizePairs_length]; omega),
      List.getElem?_eq_none (by omega)]

theorem keyString_of_isString (x : GoAny) (h : x.isString = true) :
    GoAny.str (keyString x) = x := by
  cases x <;> simp_all [GoAny.isString, keyString]

theorem keyString_of_not_isString (x : GoAny) (h : x.isString = false) :
    keyString x = "" := by
  cases x <;> simp_all [GoAny.isString, keyString]

theorem sanitizePairs_eq_self (kv : List GoAny) (hlen : kv.length % 2 = 0)
    (hkeys : ∀ (i : Nat) (h : i < kv.length), i % 2 = 0 → (kv[i]).isString = true) :
    sanitizePairs kv = kv := by
  apply List.ext_getElem?
  intro n
  by_cases hn : n < kv.length
  · rcases Nat.mod_two_eq_zero_or_one n with hev | hodd
    · obtain ⟨hlt, e⟩ := sanitizePairs_get_even kv n hev (by omega)
      rw [e, keyString_of_isString _ (hkeys n hlt hev), List.getElem?_eq_getElem hlt]
    · exact sanitizePairs_get_odd kv n hodd hlen
  · rw [List.getElem?_eq_none (by rw [sanitizePairs_length]; omega),
      List.getElem?_eq_none (by omega)]

theorem wellFormedKV_sanitizePairs (kv : List GoAny) : WellFormedKV (sanitizePairs kv) := by
  refine ⟨by rw [sanitizePairs_length]; omega, ?_⟩
  intro i h hev
  have hl := sanitizePairs_length kv
  obtain ⟨_, e⟩ := sanitizePairs_get_even kv i hev (by omega)
  rw [List.getElem?_eq_getElem h] at e
  rw [Option.some.inj e]
  rfl

theorem wellFormedKV_append {a b : List GoAny} (ha : WellFormedKV a) (hb : WellFormedKV b) :
    WellFormedKV (a ++ b) := by
  obtain ⟨ha1, ha2⟩ := ha
  obtain ⟨hb1, hb2⟩ := hb
  refine ⟨by rw [List.length_append]; omega, ?_⟩
  intro i h hev
  rw [List.length_append] at h
  by_cases hi : i < a.length
  · rw [List.getElem_append_left hi]
    exact ha2 i hi hev
  · rw [List.getElem_append_right (by omega)]
    exact hb2 (i - a.length) (by omega) (by omega)

theorem wellFormedKV_oddMarker : WellFormedKV oddMarker := by
  refine ⟨rfl, ?_⟩
  intro i h hev
  have h2 : i < 2 := h
  have : i = 0 := by omega
  subst this
  rfl

theorem wellFormedKV_nil : WellFormedKV [] :=
  ⟨rfl, fun i h _ => absurd h (Nat.not_lt_zero i)⟩

/-! ## Theorems on `SanitizeKV` -/

/-- C1: for an input of odd length, `SanitizeKV` returns what it returns for the
input without its last element, followed by exactly the two elements `"kv_error"`
and `"odd_length"`; that output has even length. -/
theorem SanitizeKV_odd_length (kv : List GoAny) (h : kv.length % 2 = 1) :
    ∃ out, SanitizeKV kv.dropLast = some out ∧
      SanitizeKV kv = some (out ++ [GoAny.str "kv_error", GoAny.str "odd_length"]) ∧
      (out ++ [GoAny.str "kv_error", GoAny.str "odd_length"]).length % 2 = 0 := by
  refine ⟨sanitizePairs kv, ?_, ?_, ?_⟩
  · rw [SanitizeKV_eq, if_neg (by rw [List.length_dropLast]; omega),
      sanitizePairs_dropLast kv h, List.append_nil]
  · rw [SanitizeKV_eq, if_pos h]
    rfl
  · rw [List.length_append, sanitizePairs_length]
    simp

theorem SanitizeKV_odd_length_witness :
    [GoAny.str "a", GoAny.int 1, GoAny.str "b"].length % 2 = 1 ∧
    ∃ out, SanitizeKV [GoAny.str "a", GoAny.int 1, GoAny.str "b"].dropLast = some out ∧
      SanitizeKV [GoAny.str "a", GoAny.int 1, GoAny.str "b"]
        = some (out ++ [GoAny.str "kv_error", GoAny.str "odd_length"]) ∧
      (out ++ [GoAny.str "kv_error", GoAny.str "odd_length"]).length % 2 = 0 :=
  ⟨by decide, SanitizeKV_odd_length _ (by decide)⟩

/-- C2: for an input of even length (the empty one included) whose elements at even
indices are all strings, `SanitizeKV` returns the input itself, element for
element. -/
theorem SanitizeKV_even_string_keys (kv : List GoAny) (hlen : kv.length % 2 = 0)
    (hkeys : ∀ (i : Nat) (h : i < kv.length), i % 2 = 0 → (kv[i]).isString = true) :
    SanitizeKV kv = some kv := by
  rw [SanitizeKV_eq, if_neg (by omega), List.append_nil,
    sanitizePairs_eq_self kv hlen hkeys]

theorem SanitizeKV_even_string_keys_witness :
    SanitizeKV [GoAny.str "a", GoAny.int 1, GoAny.str "b", GoAny.int 2]
      = some [GoAny.str "a", GoAny.int 1, GoAny.str "b", GoAny.int 2] :=
  SanitizeKV_even_string_keys [GoAny.str "a", GoAny.int 1, GoAny.str "b", GoAny.int 2]
    (by decide) (by decide)

/-- C3: for an input of even length and an even index `i` whose element is not a
string, the output of `SanitizeKV` has the empty string at `i` and the input value
at `i + 1`; it has the length of the input, every value (odd index) is where it was,
and every key that is a string is where it was. -/
theorem SanitizeKV_non_string_key (kv : List GoAny) (hlen : kv.length % 2 = 0)
    (i : Nat) (hi : i < kv.length) (hev : i % 2 = 0) (hns : (kv[i]).isString = false) :
    ∃ out, SanitizeKV kv = some out ∧
      out[i]? = some (GoAny.str "") ∧
      out[i + 1]? = kv[i + 1]? ∧
      out.length = kv.length ∧
      (∀ j : Nat, j % 2 = 1 → out[j]? = kv[j]?) ∧
      (∀ (j : Nat) (hj : j < kv.length), j % 2 = 0 → (kv[j]).isString = true →
        out[j]? = some kv[j]) := by
  refine ⟨sanitizePairs kv, ?_, ?_, ?_, ?_, ?_, ?_⟩
  · rw [SanitizeKV_eq, if_neg (by omega), List.append_nil]
  · obtain ⟨_, e⟩ := sanitizePairs_get_even kv i hev (by omega)
    rw [e, keyString_of_not_isString _ hns]
  · exact sanitizePairs_get_odd kv (i + 1) (by omega) hlen
  · rw [sanitizePairs_length]; omega
  · intro j hj
    exact sanitizePairs_get_odd kv j hj hlen
  · intro j hj hjev hs
    obtain ⟨_, e⟩ := sanitizePairs_get_even kv j hjev (by omega)
    rw [e, keyString_of_isString _ hs]

theorem SanitizeKV_non_string_key_witness :
    ∃ out, SanitizeKV [GoAny.str "a", GoAny.int 1, GoAny.int 123, GoAny.str "v"] = some out ∧
      out[2]? = some (GoAny.str "") ∧
      out[2 + 1]? = [GoAny.str "a", GoAny.int 1, GoAny.int 123, GoAny.str "v"][2 + 1]? ∧
      out.length = [GoAny.str "a", GoAny.int 1, GoAny.int 123, GoAny.str "v"].length ∧
      (∀ j : Nat, j % 2 = 1 →
        out[j]? = [GoAny.str "a", GoAny.int 1, GoAny.int 123, GoAny.str "v"][j]?) ∧
      (∀ (j : Nat)
        (hj : j < [GoAny.str "a", GoAny.int 1, GoAny.int 123, GoAny.str "v"].length),
        j % 2 = 0 →
        ([GoAny.str "a", GoAny.int 1, GoAny.int 123, GoAny.str "v"][j]).isString = true →
        out[j]? = some [GoAny.str "a", GoAny.int 1, GoAny.int 123, GoAny.str "v"][j]) :=
  SanitizeKV_non_string_key [GoAny.str "a", GoAny.int 1, GoAny.int 123, GoAny.str "v"]
    (by decide) 2 (by decide) (by decide) (by decide)

/-- C4: for every input, `SanitizeKV` returns (it does not panic), and what it
returns has even length and a string at every even index. -/
theorem SanitizeKV_wellFormed (kv : List GoAny) :
    ∃ out, SanitizeKV kv = some out ∧ out.length % 2 = 0 ∧
      ∀ (i : Nat) (h : i < out.length), i % 2 = 0 → (out[i]).isString = true := by
  refine ⟨_, SanitizeKV_eq kv, ?_⟩
  have hw : WellFormedKV (sanitizePairs kv ++ if kv.length % 2 = 1 then oddMarker else []) := by
    apply wellFormedKV_append (wellFormedKV_sanitizePairs kv)
    split
    · exact wellFormedKV_oddMarker
    · exact wellFormedKV_nil
  exact hw

/-! ## Lemmas on `addTraceKV` and on the arguments `log/slog` reads -/

theorem addTraceKV_cases (ctx : Option Context) (kv : List GoAny) :
    addTraceKV ctx kv = kv ∨ ∃ sc, addTraceKV ctx kv = kv ++ traceKV sc := by
  unfold addTraceKV
  cases ctx with
  | none => exact Or.inl rfl
  | some c =>
    simp only
    split
    · exact Or.inl rfl
    · exact Or.inr ⟨_, rfl⟩

theorem wellFormedKV_traceKV (sc : SpanContext) : WellFormedKV (traceKV sc) := by
  refine ⟨by simp [traceKV], ?_⟩
  intro i h hev
  have h4 : i < 4 := by simpa [traceKV] using h
  have : i = 0 ∨ i = 2 := by omega
  rcases this with rfl | rfl <;> simp [traceKV, GoAny.isString]

theorem wellFormedKV_addTraceKV (ctx : Option Context) {kv : List GoAny}
    (h : WellFormedKV kv) : WellFormedKV (addTraceKV ctx kv) := by
  rcases addTraceKV_cases ctx kv with e | ⟨sc, e⟩
  · rw [e]; exact h
  · rw [e]; exact wellFormedKV_append h (wellFormedKV_traceKV sc)

theorem wellFormedKV_SanitizeKV (kv : List GoAny) :
    ∃ s, SanitizeKV kv = some s ∧ WellFormedKV s := by
  refine ⟨_, SanitizeKV_eq kv, ?_⟩
  apply wellFormedKV_append (wellFormedKV_sanitizePairs kv)
  split
  · exact wellFormedKV_oddMarker
  · exact wellFormedKV_nil

theorem argsToAttrs_pair (x : String) (v : GoAny) (rest : List GoAny) :
    argsToAttrs (GoAny.str x :: v :: rest) = ⟨x, v⟩ :: argsToAttrs rest := by
  simp [argsToAttrs]

theorem argsToAttrs_sanitizePairs_append : ∀ (kv b : List GoAny),
    argsToAttrs (sanitizePairs kv ++ b)
      = argsToAttrs (sanitizePairs kv) ++ argsToAttrs b
  | [], _ => by simp [sanitizePairs, argsToAttrs]
  | [_], _ => by simp [sanitizePairs, argsToAttrs]
  | k :: v :: rest, b => by
    simp only [sanitizePairs, List.cons_append, argsToAttrs_pair,
      argsToAttrs_sanitizePairs_append rest b]

theorem argsToAttrs_append : ∀ (a b : List GoAny), WellFormedKV a →
    argsToAttrs (a ++ b) = argsToAttrs a ++ argsToAttrs b
  | [], _, _ => by simp [argsToAttrs]
  | [_], _, h => absurd h.1 (by simp)
  | k :: v :: rest, b, h => by
    have hk : k.isString = true := h.2 0 (by simp) rfl
    have hrest : WellFormedKV rest := by
      refine ⟨?_, ?_⟩
      · have := h.1
        simp only [List.length_cons] at this
        omega
      · intro i hi hev
        have := h.2 (i + 2) (by simp; omega) (by omega)
        simpa using this
    obtain ⟨x, rfl⟩ : ∃ x, k = GoAny.str x := by
      cases k <;> simp_all [GoAny.isString]
    simp only [List.cons_append, argsToAttrs_pair, argsToAttrs_append rest b hrest]

theorem argsToAttrs_sanitizePairs : ∀ kv : List GoAny,
    argsToAttrs (sanitizePairs kv) = kvAttrs kv
  | [] => by simp [sanitizePairs, argsToAttrs, kvAttrs]
  | [_] => by simp [sanitizePairs, argsToAttrs, kvAttrs]
  | k :: v :: rest => by
    simp only [sanitizePairs, argsToAttrs_pair, kvAttrs, argsToAttrs_sanitizePairs rest]

theorem mem_writtenKeys (pretty : Bool) (attrs : List Attr) (key : String) :
    key ∈ writtenKeys pretty attrs
      ↔ ∃ a ∈ attrs, key ∈ (appendAttr pretty a.key a.value).1 := by
  simp only [writtenKeys, List.mem_flatMap]

theorem appendAttr_str (pretty : Bool) (key v : String) :
    appendAttr pretty key (GoAny.str v) = ([key], true) := by
  simp [appendAttr]

theorem not_mem_builtinKeys (addSource : Bool) : "error" ∉ builtinKeys addSource := by
  cases addSource <;> decide

theorem traced_attrs_cases (ctx : Option Context) (kv : List GoAny) (a : Attr)
    (ha : a ∈ argsToAttrs (addTraceKV ctx
      (sanitizePairs kv ++ if kv.length % 2 = 1 then oddMarker else []))) :
    a ∈ kvAttrs kv ∨ ∃ k v, a = ⟨k, GoAny.str v⟩ ∧ k ≠ "error" := by
  have hwf : WellFormedKV (sanitizePairs kv ++ if kv.length % 2 = 1 then oddMarker else []) := by
    apply wellFormedKV_append (wellFormedKV_sanitizePairs kv)
    split
    · exact wellFormedKV_oddMarker
    · exact wellFormedKV_nil
  have hs : ∀ b, b ∈ argsToAttrs
      (sanitizePairs kv ++ if kv.length % 2 = 1 then oddMarker else []) →
      b ∈ kvAttrs kv ∨ ∃ k v, b = ⟨k, GoAny.str v⟩ ∧ k ≠ "error" := by
    intro b hb
    rw [argsToAttrs_sanitizePairs_append, argsToAttrs_sanitizePairs, List.mem_append] at hb
    rcases hb with hb | hb
    · exact Or.inl hb
    · right
      split at hb
      · have hb2 : b = ⟨"kv_error", GoAny.str "odd_length"⟩ := by
          simpa [oddMarker, argsToAttrs] using hb
        exact ⟨"kv_error", "odd_length", hb2, by decide⟩
      · simp [argsToAttrs] at hb
  rcases addTraceKV_cases ctx
      (sanitizePairs kv ++ if kv.length % 2 = 1 then oddMarker else []) with e | ⟨sc, e⟩
  · rw [e] at ha
    exact hs a ha
  · rw [e, argsToAttrs_append _ _ hwf, List.mem_append] at ha
    rcases ha with ha | ha
    · exact hs a ha
    · right
      have ha2 : a = ⟨"trace_id", GoAny.str sc.traceID.String⟩ ∨
          a = ⟨"span_id", GoAny.str sc.spanID.String⟩ := by
        simpa [traceKV, argsToAttrs] using ha
      rcases ha2 with h | h
      · exact ⟨"trace_id", _, h, by decide⟩
      · exact ⟨"span_id", _, h, by decide⟩

theorem ErrorCtx_eq (l : slogLogger) (ctx : Option Context) (msg : String)
    (err : Option GoError) (kv : List GoAny) :
    l.ErrorCtx ctx msg err kv = some ⟨l.core, Level.error, ctx, msg,
      match err with
      | some e => addTraceKV ctx (sanitizePairs kv ++
          if kv.length % 2 = 1 then oddMarker else []) ++ [slogString "error" e.Error]
      | none => addTraceKV ctx (sanitizePairs kv ++
          if kv.length % 2 = 1 then oddMarker else [])⟩ := by
  simp only [slogLogger.ErrorCtx, slogLogger.withCtx, SanitizeKV_eq]

/-! ## Theorems on the emission methods -/

/-- C5: each of `DebugCtx`, `InfoCtx` and `WarnCtx` calls the wrapped logger at its
own level with the context and the message unchanged and with the arguments
`addTraceKV(ctx, SanitizeKV(kv))`, nothing else added. -/
theorem emission_sanitizes_then_correlates (l : slogLogger) (ctx : Option Context)
    (msg : String) (kv : List GoAny) :
    ∃ s, SanitizeKV kv = some s ∧
      l.DebugCtx ctx msg kv = some ⟨l.core, Level.debug, ctx, msg, addTraceKV ctx s⟩ ∧
      l.InfoCtx ctx msg kv = some ⟨l.core, Level.info, ctx, msg, addTraceKV ctx s⟩ ∧
      l.WarnCtx ctx msg kv = some ⟨l.core, Level.warn, ctx, msg, addTraceKV ctx s⟩ := by
  refine ⟨_, SanitizeKV_eq kv, ?_, ?_, ?_⟩
  · simp only [slogLogger.DebugCtx, slogLogger.withCtx, SanitizeKV_eq]
  · simp only [slogLogger.InfoCtx, slogLogger.withCtx, SanitizeKV_eq]
  · simp only [slogLogger.WarnCtx, slogLogger.withCtx, SanitizeKV_eq]

/-- C6, the claim as stated fails: with a nil error and the arguments
`"error", "x"`, the line of `ErrorCtx` has the key `"error"`. -/
theorem ErrorCtx_nil_err_has_error_key :
    (slogLogger.ErrorCtx ⟨⟨Level.info, false, false, some Writer.stdout, []⟩, ""⟩ none "msg" none
        [GoAny.str "error", GoAny.str "x"]).map
      (fun c => decide ("error" ∈ c.lineKeys)) = some true := by
  decide

/-- With a nil error and no key/value arguments, the line of `ErrorCtx` has the key
`"error"` when the logger was derived by `For` from a context whose field map has
that key: the attributes bound on the logger are written in every line. -/
theorem ErrorCtx_bound_error_key_written :
    ((New []).bind fun l =>
        Logger.ErrorCtx
          (l.For (some (WithFields none (some (AList.insert "error" (GoAny.str "x") ∅)))))
          (some Context.background) "msg" none []).map
      (fun calls => calls.map fun c => decide ("error" ∈ c.lineKeys)) = some [true] := by
  decide

/-- With a nil error, the line of `ErrorCtx` has the key `"error"` when a group
with that key is the value of a key that is not a string: `SanitizeKV` makes the
key empty and the handler writes a group under the empty key inline. -/
theorem ErrorCtx_inlined_group_error_key_written :
    (slogLogger.ErrorCtx ⟨⟨Level.info, false, false, some Writer.stdout, []⟩, ""⟩ none "msg" none
        [GoAny.int 123,
         GoAny.group (GoAttrs.cons "error" (GoAny.str "x") GoAttrs.nil)]).map
      (fun c => decide ("error" ∈ c.lineKeys)) = some true := by
  decide

/-- C6, amended: when nothing else is written under the key `"error"`, neither an
attribute bound on the logger nor an attribute of the key/value arguments (a pair
with that key, or a group with such a member under an empty or non-string key),
the line of `ErrorCtx` has the key `"error"` if and only if the error argument is
not nil. -/
theorem ErrorCtx_error_key_iff (l : slogLogger) (ctx : Option Context) (msg : String)
    (err : Option GoError) (kv : List GoAny)
    (hbound : "error" ∉ writtenKeys l.core.pretty l.core.attrs)
    (hkv : "error" ∉ writtenKeys l.core.pretty (kvAttrs kv)) :
    ∃ c, l.ErrorCtx ctx msg err kv = some c ∧ c.emitted = true ∧
      ("error" ∈ c.lineKeys ↔ err ≠ none) := by
  have hwf : WellFormedKV (addTraceKV ctx
      (sanitizePairs kv ++ if kv.length % 2 = 1 then oddMarker else [])) := by
    apply wellFormedKV_addTraceKV
    apply wellFormedKV_append (wellFormedKV_sanitizePairs kv)
    split
    · exact wellFormedKV_oddMarker
    · exact wellFormedKV_nil
  have htraced : ∀ a, a ∈ argsToAttrs (addTraceKV ctx
      (sanitizePairs kv ++ if kv.length % 2 = 1 then oddMarker else [])) →
      "error" ∉ (appendAttr l.core.pretty a.key a.value).1 := by
    intro a ha hmem
    rcases traced_attrs_cases ctx kv a ha with h | ⟨k, v, rfl, hk⟩
    · exact hkv ((mem_writtenKeys _ _ _).mpr ⟨a, h, hmem⟩)
    · rw [appendAttr_str] at hmem
      simp only [List.mem_singleton] at hmem
      exact hk hmem.symm
  have hemit : SlogCore.Enabled l.core Level.error = true := by
    unfold SlogCore.Enabled
    cases l.core.level <;> decide
  refine ⟨_, ErrorCtx_eq l ctx msg err kv, hemit, ?_⟩
  simp only [WriterCall.lineKeys, List.mem_append, not_mem_builtinKeys, hbound, false_or]
  rw [mem_writtenKeys]
  simp only [WriterCall.recordAttrs, List.mem_filter]
  cases err with
  | none =>
    simp only [ne_eq, not_true_eq_false, iff_false, not_exists, not_and]
    intro a ha
    exact htraced a ha.1
  | some e =>
    simp only [ne_eq, reduceCtorEq, not_false_eq_true, iff_true]
    refine ⟨⟨"error", GoAny.str e.Error⟩, ⟨?_, rfl⟩, ?_⟩
    · rw [argsToAttrs_append _ _ hwf, List.mem_append]
      right
      simp [slogString, argsToAttrs]
    · rw [appendAttr_str]
      exact List.mem_singleton.mpr rfl

theorem ErrorCtx_error_key_iff_witness :
    ∃ c, sampleLogger.ErrorCtx none "oops" (some ⟨"bad"⟩)
        [GoAny.str "x", GoAny.int 1] = some c ∧ c.emitted = true ∧
      ("error" ∈ c.lineKeys ↔ (some (⟨"bad"⟩ : GoError)) ≠ none) :=
  ErrorCtx_error_key_iff sampleLogger none "oops" (some ⟨"bad"⟩)
    [GoAny.str "x", GoAny.int 1] (by decide) (by decide)

/-- C7: with a non-nil error, `ErrorCtx` hands the wrapped logger
`addTraceKV(ctx, SanitizeKV(kv))` followed by one `slog.Attr` with key `"error"` and
the string `err.Error()` as value, which `log/slog` reads as the last attribute of
the record, after those of the trace correlation; with a nil error it hands over
exactly `addTraceKV(ctx, SanitizeKV(kv))`. -/
theorem ErrorCtx_appends_error_last (l : slogLogger) (ctx : Option Context) (msg : String)
    (e : GoError) (kv : List GoAny) :
    ∃ s, SanitizeKV kv = some s ∧
      l.ErrorCtx ctx msg (some e) kv = some ⟨l.core, Level.error, ctx, msg,
        addTraceKV ctx s ++ [GoAny.attr "error" (GoAny.str e.Error)]⟩ ∧
      argsToAttrs (addTraceKV ctx s ++ [GoAny.attr "error" (GoAny.str e.Error)])
        = argsToAttrs (addTraceKV ctx s) ++ [⟨"error", GoAny.str e.Error⟩] ∧
      l.ErrorCtx ctx msg none kv = some ⟨l.core, Level.error, ctx, msg, addTraceKV ctx s⟩ := by
  obtain ⟨s, hs, hwf⟩ := wellFormedKV_SanitizeKV kv
  refine ⟨s, hs, ?_, ?_, ?_⟩
  · simp only [slogLogger.ErrorCtx, slogLogger.withCtx, hs, slogString]
  · rw [argsToAttrs_append _ _ (wellFormedKV_addTraceKV ctx hwf)]
    simp [argsToAttrs]
  · simp only [slogLogger.ErrorCtx, slogLogger.withCtx, hs]

/-- C8, the claim as stated fails: `ErrorCtx` with a non-nil error and no key/value
arguments hands the wrapped logger one argument, an odd number. -/
theorem ErrorCtx_args_odd_length :
    (slogLogger.ErrorCtx ⟨⟨Level.info, false, false, some Writer.stdout, []⟩, ""⟩ none "oops"
        (some ⟨"bad"⟩) []).map (fun c => c.args.length % 2) = some 1 := by
  decide

/-- C8, amended: the arguments that `DebugCtx`, `InfoCtx`, `WarnCtx`, and `ErrorCtx`
with a nil error hand to the wrapped logger have even length; those of `ErrorCtx`
with a non-nil error are a sequence of even length followed by the single
`slog.Attr` of the error. -/
theorem emission_args_length (l : slogLogger) (ctx : Option Context) (msg : String)
    (e : GoError) (kv : List GoAny) :
    (∃ c, l.DebugCtx ctx msg kv = some c ∧ c.args.length % 2 = 0) ∧
    (∃ c, l.InfoCtx ctx msg kv = some c ∧ c.args.length % 2 = 0) ∧
    (∃ c, l.WarnCtx ctx msg kv = some c ∧ c.args.length % 2 = 0) ∧
    (∃ c, l.ErrorCtx ctx msg none kv = some c ∧ c.args.length % 2 = 0) ∧
    (∃ c pre, l.ErrorCtx ctx msg (some e) kv = some c ∧
      c.args = pre ++ [slogString "error" e.Error] ∧ pre.length % 2 = 0) := by
  obtain ⟨s, hs, hwf⟩ := wellFormedKV_SanitizeKV kv
  have hlen := (wellFormedKV_addTraceKV ctx hwf).1
  have hD : l.DebugCtx ctx msg kv = some ⟨l.core, Level.debug, ctx, msg, addTraceKV ctx s⟩ := by
    simp only [slogLogger.DebugCtx, slogLogger.withCtx, hs]
  have hI : l.InfoCtx ctx msg kv = some ⟨l.core, Level.info, ctx, msg, addTraceKV ctx s⟩ := by
    simp only [slogLogger.InfoCtx, slogLogger.withCtx, hs]
  have hW : l.WarnCtx ctx msg kv = some ⟨l.core, Level.warn, ctx, msg, addTraceKV ctx s⟩ := by
    simp only [slogLogger.WarnCtx, slogLogger.withCtx, hs]
  have hN : l.ErrorCtx ctx msg none kv
      = some ⟨l.core, Level.error, ctx, msg, addTraceKV ctx s⟩ := by
    simp only [slogLogger.ErrorCtx, slogLogger.withCtx, hs]
  have hE : l.ErrorCtx ctx msg (some e) kv = some ⟨l.core, Level.error, ctx, msg,
      addTraceKV ctx s ++ [slogString "error" e.Error]⟩ := by
    simp only [slogLogger.ErrorCtx, slogLogger.withCtx, hs]
  exact ⟨⟨_, hD, hlen⟩, ⟨_, hI, hlen⟩, ⟨_, hW, hlen⟩, ⟨_, hN, hlen⟩, ⟨_, _, hE, rfl, hlen⟩⟩

/-! ## Theorems on `addTraceKV` -/

theorem hexDigit_mem : ∀ n : Nat, n < 16 → hexDigit n ∈ hextable := by
  decide

theorem hexEncodeToString_length (src : List Byte) :
    (hexEncodeToString src).length = 2 * src.length := by
  unfold hexEncodeToString
  rw [String.length_mk]
  induction src with
  | nil => rfl
  | cons b t ih =>
    simp only [List.flatMap_cons, List.length_append, List.length_cons, ih]
    simp
    omega

theorem hexEncodeToString_chars (src : List Byte) :
    ∀ ch ∈ (hexEncodeToString src).data, ch ∈ hextable := by
  intro ch hch
  unfold hexEncodeToString at hch
  simp only [List.mem_flatMap] at hch
  obtain ⟨v, _, hv⟩ := hch
  have h1 : v.val >>> 4 < 16 := by
    rw [Nat.shiftRight_eq_div_pow]
    have := v.isLt
    omega
  have h2 : v.val &&& 0x0f < 16 := Nat.lt_succ_of_le Nat.and_le_right
  simp only [List.mem_cons, List.mem_singleton, List.not_mem_nil, or_false] at hv
  rcases hv with rfl | rfl
  · exact hexDigit_mem _ h1
  · exact hexDigit_mem _ h2

theorem not_zero_bytes (bs : List Byte) (n : Nat) (h : bs.length = n) :
    (!(bs == List.replicate n (0 : Byte))) = bs.any (fun b => decide (b ≠ 0)) := by
  by_cases hz : bs = List.replicate n (0 : Byte)
  · have hall : ∀ b ∈ bs, b = 0 := (List.eq_replicate_iff.mp hz).2
    have : bs.any (fun b => decide (b ≠ 0)) = false := by
      rw [List.any_eq_false]
      intro b hb
      simp [hall b hb]
    rw [this]
    simp [hz]
  · have hex : ∃ b ∈ bs, b ≠ 0 := by
      by_contra hno
      push_neg at hno
      exact hz (List.eq_replicate_iff.mpr ⟨h, hno⟩)
    have : bs.any (fun b => decide (b ≠ 0)) = true := by
      rw [List.any_eq_true]
      obtain ⟨b, hb, hne⟩ := hex
      exact ⟨b, hb, by simp [hne]⟩
    rw [this]
    simp [hz]

/-- C9: `addTraceKV` returns `kv` for the nil context; for a context it returns `kv`
followed by exactly `"trace_id"`, the hex text of the trace ID, `"span_id"`, the hex
text of the span ID when the span context of the context has a non-zero byte in its
trace ID and a non-zero byte in its span ID, and `kv` itself otherwise, in
particular when the context stores no span. The two texts have 32 and 16
characters, all of them among `0123456789abcdef`. -/
theorem addTraceKV_spec (c : Context) (kv : List GoAny) :
    addTraceKV none kv = kv ∧
    addTraceKV (some c) kv =
      (if (SpanFromContext c).traceID.bytes.any (fun b => decide (b ≠ 0)) = true ∧
          (SpanFromContext c).spanID.bytes.any (fun b => decide (b ≠ 0)) = true then
        kv ++ [GoAny.str "trace_id",
               GoAny.str (hexEncodeToString (SpanFromContext c).traceID.bytes),
               GoAny.str "span_id",
               GoAny.str (hexEncodeToString (SpanFromContext c).spanID.bytes)]
      else kv) ∧
    ((∀ sc, c.Value CtxKey.currentSpanKey ≠ some (CtxVal.span sc)) →
      addTraceKV (some c) kv = kv) ∧
    (hexEncodeToString (SpanFromContext c).traceID.bytes).length = 32 ∧
    (hexEncodeToString (SpanFromContext c).spanID.bytes).length = 16 ∧
    (∀ ch ∈ (hexEncodeToString (SpanFromContext c).traceID.bytes).data, ch ∈ hextable) ∧
    (∀ ch ∈ (hexEncodeToString (SpanFromContext c).spanID.bytes).data, ch ∈ hextable) := by
  refine ⟨rfl, ?_, ?_, ?_, ?_, hexEncodeToString_chars _, hexEncodeToString_chars _⟩
  · have ht := not_zero_bytes _ 16 (SpanFromContext c).traceID.size_eq
    have hs := not_zero_bytes _ 8 (SpanFromContext c).spanID.size_eq
    simp only [addTraceKV, SpanContext.HasTraceID, SpanContext.HasSpanID, TraceID.IsValid,
      SpanID.IsValid, TraceID.String, SpanID.String]
    rw [ht, hs]
    generalize (SpanFromContext c).traceID.bytes.any (fun b => decide (b ≠ 0)) = a
    generalize (SpanFromContext c).spanID.bytes.any (fun b => decide (b ≠ 0)) = b
    cases a <;> cases b <;> simp
  · intro hno
    have hz : SpanFromContext c = SpanContext.zero := by
      unfold SpanFromContext
      split
      · next sc heq => exact absurd heq (hno sc)
      · rfl
    simp only [addTraceKV, hz]
    rfl
  · rw [hexEncodeToString_length, (SpanFromContext c).traceID.size_eq]
  · rw [hexEncodeToString_length, (SpanFromContext c).spanID.size_eq]

/-! ## Theorems on `WithFields` -/

theorem lookup_assignAll (k : String) : ∀ (m : List (Sigma fun _ : String => GoAny))
    (base : FieldMap), m.NodupKeys →
    (assignAll base m).lookup k
      = match List.dlookup k m with
        | some v => some v
        | none => base.lookup k
  | [], base, _ => by simp [assignAll]
  | ⟨a, b⟩ :: t, base, hnd => by
    have hcons := List.nodupKeys_cons.mp hnd
    have ih := lookup_assignAll k t (base.insert a b) hcons.2
    have e : assignAll base (⟨a, b⟩ :: t) = assignAll (base.insert a b) t := rfl
    rw [e, ih]
    by_cases hk : k = a
    · subst hk
      have hnone : List.dlookup k t = none := List.dlookup_eq_none.mpr hcons.1
      rw [hnone, List.dlookup_cons_eq]
      exact AList.lookup_insert base
    · rw [List.dlookup_cons_ne t ⟨a, b⟩ hk]
      cases List.dlookup k t with
      | some v => rfl
      | none => exact AList.lookup_insert_ne hk

theorem lookup_assignAll_entries (k : String) (base m : FieldMap) :
    (assignAll base m.entries).lookup k
      = match m.lookup k with
        | some v => some v
        | none => base.lookup k :=
  lookup_assignAll k m.entries base m.nodupKeys

/-- C10: for a non-empty mapping `fields`, the field map carried by
`WithFields(ctx, fields)` holds, under every key, the value `fields` has for it, and
for a key absent from `fields` what the field map of `ctx` has for it (nothing when
`ctx` is nil or carries no field map); so it has no key outside the two maps. -/
theorem WithFields_union (ctx : Option Context) (fields : GoMap) (hne : fields.len ≠ 0)
    (k : String) :
    (WithFields ctx fields).fieldMap.get k
      = match fields.get k with
        | some v => some v
        | none =>
          match ctx with
          | some c => c.fieldMap.get k
          | none => none := by
  cases fields with
  | none => exact absurd rfl hne
  | some f =>
    have hnew : ∀ (c0 : Context) (base : FieldMap),
        (Context.withValue c0 CtxKey.logFieldsKey
          (CtxVal.fields (some (assignAll base f.entries)))).fieldMap.get k
          = match f.lookup k with
            | some v => some v
            | none => base.lookup k := by
      intro c0 base
      simp only [Context.fieldMap, Context.Value, if_true, GoMap.get]
      exact lookup_assignAll_entries k base f
    have hempty : (match f.lookup k with
        | some v => some v
        | none => (∅ : FieldMap).lookup k) = match f.lookup k with
        | some v => some v
        | none => none := by
      cases f.lookup k <;> simp
    cases ctx with
    | none =>
      have e : WithFields none (some f) = Context.withValue Context.background
          CtxKey.logFieldsKey (CtxVal.fields (some (assignAll ∅ f.entries))) := by
        simp only [WithFields, if_neg hne, GoMap.entries, Context.Value]
      rw [e, hnew, hempty]
      rfl
    | some c =>
      cases hv : c.Value CtxKey.logFieldsKey with
      | none =>
        have e : WithFields (some c) (some f) = Context.withValue c
            CtxKey.logFieldsKey (CtxVal.fields (some (assignAll ∅ f.entries))) := by
          simp only [WithFields, if_neg hne, GoMap.entries, hv]
        rw [e, hnew, hempty]
        simp only [Context.fieldMap, hv, GoMap.get]
      | some v =>
        cases v with
        | fields m =>
          cases m with
          | none =>
            have e : WithFields (some c) (some f) = Context.withValue c
                CtxKey.logFieldsKey (CtxVal.fields (some (assignAll ∅ f.entries))) := by
              simp only [WithFields, if_neg hne, GoMap.entries, hv]
            rw [e, hnew, hempty]
            simp only [Context.fieldMap, hv, GoMap.get]
          | some old =>
            have e : WithFields (some c) (some f) = Context.withValue c
                CtxKey.logFieldsKey (CtxVal.fields (some
                  (assignAll (assignAll ∅ old.entries) f.entries))) := by
              simp only [WithFields, if_neg hne, GoMap.entries, hv]
            rw [e, hnew, lookup_assignAll_entries k ∅ old]
            simp only [Context.fieldMap, hv, GoMap.get]
            cases f.lookup k <;> cases old.lookup k <;> simp
        | logger _ =>
          have e : WithFields (some c) (some f) = Context.withValue c
              CtxKey.logFieldsKey (CtxVal.fields (some (assignAll ∅ f.entries))) := by
            simp only [WithFields, if_neg hne, GoMap.entries, hv]
          rw [e, hnew, hempty]
          simp only [Context.fieldMap, hv, GoMap.get]
        | span _ =>
          have e : WithFields (some c) (some f) = Context.withValue c
              CtxKey.logFieldsKey (CtxVal.fields (some (assignAll ∅ f.entries))) := by
            simp only [WithFields, if_neg hne, GoMap.entries, hv]
          rw [e, hnew, hempty]
          simp only [Context.fieldMap, hv, GoMap.get]
        | any _ =>
          have e : WithFields (some c) (some f) = Context.withValue c
              CtxKey.logFieldsKey (CtxVal.fields (some (assignAll ∅ f.entries))) := by
            simp only [WithFields, if_neg hne, GoMap.entries, hv]
          rw [e, hnew, hempty]
          simp only [Context.fieldMap, hv, GoMap.get]

theorem WithFields_union_witness :
    (WithFields
        (some (Context.withValue Context.background CtxKey.logFieldsKey
          (CtxVal.fields (some (AList.insert "trace_id" (GoAny.str "abc") ∅)))))
        (some (AList.insert "user" (GoAny.str "u1") ∅))).fieldMap.get "trace_id"
      = match GoMap.get (some (AList.insert "user" (GoAny.str "u1") ∅)) "trace_id" with
        | some v => some v
        | none =>
          match some (Context.withValue Context.background CtxKey.logFieldsKey
              (CtxVal.fields (some (AList.insert "trace_id" (GoAny.str "abc") ∅)))) with
          | some c => c.fieldMap.get "trace_id"
          | none => none :=
  WithFields_union
    (some (Context.withValue Context.background CtxKey.logFieldsKey
      (CtxVal.fields (some (AList.insert "trace_id" (GoAny.str "abc") ∅)))))
    (some (AList.insert "user" (GoAny.str "u1") ∅)) (by decide) "trace_id"

/-! ## Theorems on `WithFields` with an empty mapping, `For` and the registry -/

/-- C12: for an empty mapping, nil or with zero entries, `WithFields` returns
the context it was given, with no frame pushed, and the background context for the
nil context; run on map objects it leaves the store as it was. -/
theorem WithFields_empty (c : Context) (fields : GoMap) (hlen : fields.len = 0) :
    WithFields (some c) fields = c ∧
    WithFields none fields = Context.background ∧
    (∀ (h : MapStore) (rc : RefContext) (r : Option Nat), h.deref r = fields →
      WithFieldsRef h (some rc) r = some (h, rc)) := by
  refine ⟨?_, ?_, ?_⟩
  · simp only [WithFields, hlen, if_true]
  · simp only [WithFields, hlen, if_true]
  · intro h rc r hr
    simp only [WithFieldsRef, hr, hlen, if_true]

theorem WithFields_empty_witness :
    WithFields (some (Context.withValue Context.background (CtxKey.user 0)
        (CtxVal.any (GoAny.int 1)))) (some ∅)
      = Context.withValue Context.background (CtxKey.user 0) (CtxVal.any (GoAny.int 1)) ∧
    WithFields none (some ∅) = Context.background ∧
    (∀ (h : MapStore) (rc : RefContext) (r : Option Nat), h.deref r = some ∅ →
      WithFieldsRef h (some rc) r = some (h, rc)) :=
  WithFields_empty (Context.withValue Context.background (CtxKey.user 0)
    (CtxVal.any (GoAny.int 1))) (some ∅) rfl

theorem For_receiver_of_empty (l : slogLogger) (ctx : Option Context)
    (hctx : ∀ c, ctx = some c → c.fieldMap.len = 0) : l.For ctx = ForResult.receiver := by
  cases ctx with
  | none => rfl
  | some c =>
    have h := hctx c rfl
    unfold slogLogger.For
    simp only
    unfold Context.fieldMap at h
    cases hv : c.Value CtxKey.logFieldsKey with
    | none => rfl
    | some v =>
      cases v with
      | fields m =>
        rw [hv] at h
        simp only at h
        simp only [h]
        rfl
      | logger _ => rfl
      | span _ => rfl
      | any _ => rfl

/-- C13: for a context that is nil or whose field map is missing or empty, `For`
of the default logger returns its receiver, not a new struct; so does every
further application, and the logger reached is `l`. -/
theorem For_no_fields_returns_receiver (l : slogLogger) (ctx : Option Context)
    (hctx : ∀ c, ctx = some c → c.fieldMap.len = 0) :
    l.For ctx = ForResult.receiver ∧
    ∀ n : Nat, Nat.iterate (fun x => (slogLogger.For x ctx).deref x) n l = l := by
  refine ⟨For_receiver_of_empty l ctx hctx, ?_⟩
  intro n
  induction n with
  | zero => rfl
  | succ k ih =>
    rw [Function.iterate_succ_apply', ih, For_receiver_of_empty l ctx hctx]
    rfl

theorem For_no_fields_returns_receiver_witness :
    slogLogger.For ⟨⟨Level.info, false, false, some Writer.stdout, []⟩, "svc"⟩
        (some Context.background) = ForResult.receiver ∧
    ∀ n : Nat, Nat.iterate
      (fun x => (slogLogger.For x (some Context.background)).deref x) n
        ⟨⟨Level.info, false, false, some Writer.stdout, []⟩, "svc"⟩
      = ⟨⟨Level.info, false, false, some Writer.stdout, []⟩, "svc"⟩ :=
  For_no_fields_returns_receiver ⟨⟨Level.info, false, false, some Writer.stdout, []⟩, "svc"⟩
    (some Context.background) (by
      intro c hc
      cases hc
      rfl)

theorem fieldArgs_foldl (es : List (Sigma fun _ : String => GoAny)) :
    ∀ acc : List GoAny,
      es.foldl (fun attrs e => attrs ++ [GoAny.str e.1, e.2]) acc
        = acc ++ es.flatMap fun e => [GoAny.str e.1, e.2] := by
  induction es with
  | nil => intro acc; simp
  | cons e t ih =>
    intro acc
    simp only [List.foldl_cons, ih, List.flatMap_cons, List.append_assoc]

theorem argsToAttrs_fieldArgs (es : List (Sigma fun _ : String => GoAny)) :
    argsToAttrs (fieldArgs es) = es.map entryAttr := by
  unfold fieldArgs
  rw [fieldArgs_foldl, List.nil_append]
  induction es with
  | nil => simp [argsToAttrs]
  | cons e t ih =>
    simp only [List.flatMap_cons, List.cons_append, List.nil_append, argsToAttrs_pair, ih,
      List.map_cons, entryAttr]

theorem fieldArgs_length (es : List (Sigma fun _ : String => GoAny)) :
    (fieldArgs es).length = 2 * es.length := by
  unfold fieldArgs
  rw [fieldArgs_foldl, List.nil_append]
  induction es with
  | nil => rfl
  | cons e t ih =>
    simp only [List.flatMap_cons, List.length_append, List.length_cons, List.length_nil, ih]
    omega

/-- C14: for a context carrying a non-empty field map `m`, `For` of the default
logger returns a new logger whose base attributes are those of `l` followed by one
attribute per entry of `m`, every key of `m` once with its value, in the order the
entries are visited; the service name and the rest of the wrapped logger are those
of `l`. -/
theorem For_binds_fields (l : slogLogger) (c : Context) (m : FieldMap)
    (hm : c.fieldMap = some m) (hne : m.entries ≠ []) :
    ∃ (l2 : slogLogger) (order : List (Sigma fun _ : String => GoAny)),
      l.For (some c) = ForResult.fresh l2 ∧
      order.Perm m.entries ∧
      (order.map fun e => e.1).Nodup ∧
      l2.core.attrs = l.core.attrs ++ order.map entryAttr ∧
      l2.svc = l.svc ∧
      l2.core.level = l.core.level ∧ l2.core.addSource = l.core.addSource ∧
      l2.core.pretty = l.core.pretty ∧ l2.core.writer = l.core.writer := by
  have hv : c.Value CtxKey.logFieldsKey = some (CtxVal.fields (some m)) := by
    unfold Context.fieldMap at hm
    cases hv : c.Value CtxKey.logFieldsKey with
    | none => rw [hv] at hm; simp at hm
    | some v =>
      cases v with
      | fields m2 => rw [hv] at hm; simp only at hm; rw [hm]
      | logger _ => rw [hv] at hm; simp at hm
      | span _ => rw [hv] at hm; simp at hm
      | any _ => rw [hv] at hm; simp at hm
  have hpos : 0 < m.entries.length := List.length_pos.mpr hne
  have hargs : (fieldArgs m.entries).length ≠ 0 := by
    rw [fieldArgs_length]; omega
  refine ⟨⟨l.core.With (fieldArgs m.entries), l.svc⟩, m.entries, ?_, List.Perm.refl _,
    m.nodupKeys, ?_, rfl, ?_, ?_, ?_, ?_⟩
  · simp only [slogLogger.For, hv, GoMap.len, GoMap.entries, gt_iff_lt, hpos, if_true]
  all_goals simp only [SlogCore.With, if_neg hargs, argsToAttrs_fieldArgs]

theorem For_binds_fields_witness :
    ∃ (l2 : slogLogger) (order : List (Sigma fun _ : String => GoAny)),
      sampleLogger.For (some sampleContext) = ForResult.fresh l2 ∧
      order.Perm sampleFields.entries ∧
      (order.map fun e => e.1).Nodup ∧
      l2.core.attrs = sampleLogger.core.attrs ++ order.map entryAttr ∧
      l2.svc = sampleLogger.svc ∧
      l2.core.level = sampleLogger.core.level ∧
      l2.core.addSource = sampleLogger.core.addSource ∧
      l2.core.pretty = sampleLogger.core.pretty ∧
      l2.core.writer = sampleLogger.core.writer :=
  For_binds_fields sampleLogger sampleContext sampleFields rfl (by decide)

/-- C15: for every context, the nil one included, and every logger `l` that is
not nil, `FromContext` of `IntoContext(ctx, l)` returns `l`. -/
theorem FromContext_IntoContext (ctx : Option Context) (l : Logger) :
    FromContext (some (IntoContext ctx (some l))) = some l := by
  simp only [FromContext, IntoContext, Context.Value, if_true]

/-- C16: `FromContext` returns a logger that is not nil for every context, and
the no-op logger for the nil context, for a context with nothing stored under the
logger key, and for a context in which `IntoContext` stored the nil logger. -/
theorem FromContext_never_nil (ctx ctx0 : Option Context) :
    (∃ l, FromContext ctx = some l) ∧
    FromContext none = some Logger.noop ∧
    (∀ c : Context, c.Value CtxKey.loggerKey = none →
      FromContext (some c) = some Logger.noop) ∧
    FromContext (some (IntoContext ctx0 none)) = some Logger.noop := by
  refine ⟨?_, rfl, ?_, ?_⟩
  · cases ctx with
    | none => exact ⟨Logger.noop, rfl⟩
    | some c =>
      unfold FromContext
      simp only
      split
      · exact ⟨_, rfl⟩
      · exact ⟨Logger.noop, rfl⟩
  · intro c hc
    simp only [FromContext, hc, getNoop]
  · simp only [FromContext, IntoContext, Context.Value, if_true, getNoop]

/-- C17: `For` of the no-op logger returns the no-op logger for every context,
one that carries a non-empty field map included, and each of its four emission
methods returns without a call of any writer. -/
theorem noop_does_nothing (ctx : Option Context) (msg : String) (err : Option GoError)
    (kv : List GoAny) :
    noopLogger.For ctx = Logger.noop ∧
    Logger.For Logger.noop ctx = Logger.noop ∧
    Logger.For Logger.noop (some sampleContext) = Logger.noop ∧
    Logger.DebugCtx Logger.noop ctx msg kv = some [] ∧
    Logger.InfoCtx Logger.noop ctx msg kv = some [] ∧
    Logger.WarnCtx Logger.noop ctx msg kv = some [] ∧
    Logger.ErrorCtx Logger.noop ctx msg err kv = some [] :=
  ⟨rfl, rfl, rfl, rfl, rfl, rfl, rfl⟩

/-! ## Theorems on levels -/

theorem emit_eq (l : slogLogger) (lvl : Level) (ctx : Option Context) (msg : String)
    (err : Option GoError) (kv : List GoAny) :
    ∃ c, l.emit lvl ctx msg err kv = some c ∧ c.core = l.core ∧ c.level = lvl := by
  obtain ⟨s, hs, _⟩ := wellFormedKV_SanitizeKV kv
  cases lvl
  · refine ⟨⟨l.core, Level.debug, ctx, msg, addTraceKV ctx s⟩, ?_, rfl, rfl⟩
    simp only [slogLogger.emit, slogLogger.DebugCtx, slogLogger.withCtx, hs]
  · refine ⟨⟨l.core, Level.info, ctx, msg, addTraceKV ctx s⟩, ?_, rfl, rfl⟩
    simp only [slogLogger.emit, slogLogger.InfoCtx, slogLogger.withCtx, hs]
  · refine ⟨⟨l.core, Level.warn, ctx, msg, addTraceKV ctx s⟩, ?_, rfl, rfl⟩
    simp only [slogLogger.emit, slogLogger.WarnCtx, slogLogger.withCtx, hs]
  · exact ⟨_, ErrorCtx_eq l ctx msg err kv, rfl, rfl⟩

theorem New_WithLevel (s : String) :
    New [WithLevel s] = some (Logger.slog
      ⟨⟨(match (mapLevel s).2 with
          | some _ => Level.info
          | none => (mapLevel s).1), false, false, some Writer.stdout, []⟩, ""⟩) := by
  simp [New, applyOptions, WithLevel, SlogCore.With]

/-- C18: for each of the levels debug, info, warn and error configured by its
name, and for each emission method, the logger that `New(WithLevel(L))` returns has
the record of the call written if and only if the level of the method is not below
`L` in the order debug < info < warn < error; for `"warn"` those are the warn and
error calls and not the debug and info calls. -/
theorem New_level_threshold (lv lvl : Level) (ctx : Option Context) (msg : String)
    (err : Option GoError) (kv : List GoAny) :
    ∃ l, New [WithLevel lv.name] = some (Logger.slog l) ∧
      (∃ c, l.emit lvl ctx msg err kv = some c ∧ c.level = lvl ∧
        (c.emitted = true ↔ lv.ord ≤ lvl.ord)) ∧
      (lv = Level.warn →
        (∃ c, l.DebugCtx ctx msg kv = some c ∧ c.emitted = false) ∧
        (∃ c, l.InfoCtx ctx msg kv = some c ∧ c.emitted = false) ∧
        (∃ c, l.WarnCtx ctx msg kv = some c ∧ c.emitted = true) ∧
        (∃ c, l.ErrorCtx ctx msg err kv = some c ∧ c.emitted = true)) := by
  have hmap : mapLevel lv.name = (lv, none) := by
    cases lv <;> decide
  refine ⟨_, New_WithLevel lv.name, ?_, ?_⟩
  · obtain ⟨c, hc, hcore, hlvl⟩ := emit_eq
      ⟨⟨(match (mapLevel lv.name).2 with
          | some _ => Level.info
          | none => (mapLevel lv.name).1), false, false, some Writer.stdout, []⟩, ""⟩
      lvl ctx msg err kv
    refine ⟨c, hc, hlvl, ?_⟩
    simp only [WriterCall.emitted, SlogCore.Enabled, hcore, hlvl, hmap, decide_eq_true_eq]
    cases lv <;> cases lvl <;> decide
  · intro hw
    subst hw
    have key : ∀ lvl : Level, ∃ c,
        slogLogger.emit ⟨⟨(match (mapLevel Level.warn.name).2 with
          | some _ => Level.info
          | none => (mapLevel Level.warn.name).1), false, false, some Writer.stdout, []⟩, ""⟩
          lvl ctx msg err kv = some c ∧ c.emitted = decide (Level.warn.ord ≤ lvl.ord) := by
      intro lvl
      obtain ⟨c, hc, hcore, hlvl⟩ := emit_eq
        ⟨⟨(match (mapLevel Level.warn.name).2 with
            | some _ => Level.info
            | none => (mapLevel Level.warn.name).1), false, false, some Writer.stdout, []⟩, ""⟩
        lvl ctx msg err kv
      refine ⟨c, hc, ?_⟩
      simp only [WriterCall.emitted, SlogCore.Enabled, hcore, hlvl, hmap]
      cases lvl <;> decide
    exact ⟨key Level.debug, key Level.info, key Level.warn, key Level.error⟩

/-- C19: for a level string that `mapLevel` rejects, `New(WithLevel(s))` returns
a default logger (it does not fail) whose minimum level is info: the records of
info, warn and error calls are written and those of debug calls are not. -/
theorem New_rejected_level_is_info (s : String) (hrej : (mapLevel s).2 ≠ none)
    (lvl : Level) (ctx : Option Context) (msg : String) (err : Option GoError)
    (kv : List GoAny) :
    ∃ l, New [WithLevel s] = some (Logger.slog l) ∧
      l.core.level = Level.info ∧
      ∃ c, l.emit lvl ctx msg err kv = some c ∧ c.level = lvl ∧
        (c.emitted = true ↔ lvl ≠ Level.debug) := by
  have hlevel : (match (mapLevel s).2 with
      | some _ => Level.info
      | none => (mapLevel s).1) = Level.info := by
    cases h : (mapLevel s).2 with
    | none => exact absurd h hrej
    | some e => rfl
  refine ⟨_, New_WithLevel s, hlevel, ?_⟩
  obtain ⟨c, hc, hcore, hlvl⟩ := emit_eq
    ⟨⟨(match (mapLevel s).2 with
        | some _ => Level.info
        | none => (mapLevel s).1), false, false, some Writer.stdout, []⟩, ""⟩
    lvl ctx msg err kv
  refine ⟨c, hc, hlvl, ?_⟩
  simp only [WriterCall.emitted, SlogCore.Enabled, hcore, hlvl, hlevel, decide_eq_true_eq]
  cases lvl <;> decide

theorem New_rejected_level_is_info_witness :
    ∃ l, New [WithLevel "bogus"] = some (Logger.slog l) ∧
      l.core.level = Level.info ∧
      ∃ c, l.emit Level.debug none "debug may be filtered" none [] = some c ∧
        c.level = Level.debug ∧
        (c.emitted = true ↔ Level.debug ≠ Level.debug) :=
  New_rejected_level_is_info "bogus" (by decide) Level.debug none "debug may be filtered"
    none []

/-- C20, the claim as stated fails: `"warning"` is none of the four strings, and
`mapLevel` maps it to the level warn without an error. -/
theorem mapLevel_warning_accepted :
    "warning" ∉ ["debug", "info", "warn", "error"] ∧
    mapLevel "warning" = (Level.warn, none) := by
  decide

/-- C20, amended: `mapLevel` maps `"debug"`, `"info"`, `"warn"` and `"error"` each
to its own level without an error, and also the empty string to info and
`"warning"` to warn; for every other string it returns the level info with the
error `invalid log level: ` followed by the string, and the logger that `New` builds
for it has the minimum level info. -/
theorem mapLevel_spec (s : String) :
    mapLevel "debug" = (Level.debug, none) ∧
    mapLevel "info" = (Level.info, none) ∧
    mapLevel "warn" = (Level.warn, none) ∧
    mapLevel "error" = (Level.error, none) ∧
    mapLevel "" = (Level.info, none) ∧
    mapLevel "warning" = (Level.warn, none) ∧
    (s ∉ ["debug", "info", "warn", "error", "", "warning"] →
      mapLevel s = (Level.info, some ⟨"invalid log level: " ++ s⟩) ∧
      ∃ l, New [WithLevel s] = some (Logger.slog l) ∧ l.core.level = Level.info) := by
  refine ⟨by decide, by decide, by decide, by decide, by decide, by decide, ?_⟩
  intro hs
  simp only [List.mem_cons, List.mem_singleton, List.not_mem_nil, or_false, not_or] at hs
  obtain ⟨h1, h2, h3, h4, h5, h6⟩ := hs
  have hm : mapLevel s = (Level.info, some ⟨"invalid log level: " ++ s⟩) := by
    simp [mapLevel, h1, h2, h3, h4, h5, h6]
  refine ⟨hm, _, New_WithLevel s, ?_⟩
  simp only [hm]

/-! ## Theorems on `WithFields` run on map objects -/

theorem assign_last (h : MapStore) (m0 : FieldMap) (k : String) (v : GoAny) :
    MapStore.assign (h ++ [m0]) h.length k v = some (h ++ [m0.insert k v]) := by
  unfold MapStore.assign
  rw [List.getElem?_concat_length]
  simp

theorem assignAllRef_last (es : List (Sigma fun _ : String => GoAny)) :
    ∀ (h : MapStore) (m0 : FieldMap),
      assignAllRef (h ++ [m0]) h.length es = some (h ++ [assignAll m0 es]) := by
  induction es with
  | nil => intro h m0; rfl
  | cons e t ih =>
    intro h m0
    unfold assignAllRef
    rw [assign_last]
    simp only
    rw [ih]
    rfl

theorem deref_append (h : MapStore) (m0 : FieldMap) (f : Nat) (fm : FieldMap)
    (hf : h[f]? = some fm) : MapStore.deref (h ++ [m0]) (some f) = some fm := by
  have hlt : f < h.length := (List.getElem?_eq_some.mp hf).1
  simp only [MapStore.deref]
  rw [List.getElem?_append_left hlt, hf]

theorem WithFieldsRef_copy (h : MapStore) (c : RefContext) (f a : Nat) (fm m : FieldMap)
    (hf : h[f]? = some fm) (hne : fm.entries.length ≠ 0)
    (hv : c.Value CtxKey.logFieldsKey = some (RefVal.mapRef (some a)))
    (ha : h[a]? = some m) :
    WithFieldsRef h (some c) (some f)
      = some (h ++ [assignAll (assignAll ∅ m.entries) fm.entries],
          RefContext.withValue c CtxKey.logFieldsKey (RefVal.mapRef (some h.length))) := by
  have hlen : ¬ GoMap.len (MapStore.deref h (some f)) = 0 := by
    simp only [MapStore.deref, hf, GoMap.len]
    exact hne
  simp only [WithFieldsRef, if_neg hlen, hv, ha, MapStore.make, assignAllRef_last,
    deref_append h _ f fm hf, GoMap.entries]

theorem WithFieldsRef_fresh (h : MapStore) (c : RefContext) (f : Nat) (fm : FieldMap)
    (hf : h[f]? = some fm) (hne : fm.entries.length ≠ 0)
    (hv : ∀ a, c.Value CtxKey.logFieldsKey ≠ some (RefVal.mapRef (some a))) :
    WithFieldsRef h (some c) (some f)
      = some (h ++ [assignAll ∅ fm.entries],
          RefContext.withValue c CtxKey.logFieldsKey (RefVal.mapRef (some h.length))) := by
  have hlen : ¬ GoMap.len (MapStore.deref h (some f)) = 0 := by
    simp only [MapStore.deref, hf, GoMap.len]
    exact hne
  have hcopied : (match c.Value CtxKey.logFieldsKey with
      | some (RefVal.mapRef (some a)) =>
        match h[a]? with
        | some m =>
          match assignAllRef (MapStore.make h).1 (MapStore.make h).2 m.entries with
          | some h2 => some (h2, some (MapStore.make h).2)
          | none => none
        | none => none
      | _ => some (h, none)) = some (h, (none : Option Nat)) := by
    split
    · next a heq => exact absurd heq (hv a)
    · rfl
  simp only [WithFieldsRef, if_neg hlen]
  simp only [hcopied, MapStore.make, assignAllRef_last, deref_append h _ f fm hf,
    GoMap.entries]

theorem Value_resolve (h : MapStore) (key : CtxKey) : ∀ c : RefContext,
    (c.resolve h).Value key = (c.Value key).map (RefVal.resolve h)
  | RefContext.background => rfl
  | RefContext.withValue parent k v => by
    simp only [RefContext.resolve, Context.Value, RefContext.Value]
    by_cases hk : key = k
    · simp only [if_pos hk, Option.map_some']
    · simp only [if_neg hk]
      exact Value_resolve h key parent

theorem fieldMap_resolve (h : MapStore) (c : RefContext) :
    (c.resolve h).fieldMap = c.fieldMap h := by
  unfold Context.fieldMap RefContext.fieldMap
  rw [Value_resolve]
  cases c.Value CtxKey.logFieldsKey with
  | none => rfl
  | some v => cases v <;> rfl

theorem allocated_of_value (h : MapStore) (key : CtxKey) (a : Nat) : ∀ c : RefContext,
    c.allocated h = true → c.Value key = some (RefVal.mapRef (some a)) → a < h.length
  | RefContext.background, _, hv => by simp [RefContext.Value] at hv
  | RefContext.withValue parent k v, hall, hv => by
    have hpar : parent.allocated h = true := by
      cases v with
      | mapRef r =>
        cases r with
        | none => exact hall
        | some b =>
          simp only [RefContext.allocated, Bool.and_eq_true] at hall
          exact hall.2
      | logger _ => exact hall
      | span _ => exact hall
      | any _ => exact hall
    simp only [RefContext.Value] at hv
    by_cases hk : key = k
    · rw [if_pos hk] at hv
      cases Option.some.inj hv
      simp only [RefContext.allocated, Bool.and_eq_true, decide_eq_true_eq] at hall
      exact hall.1
    · rw [if_neg hk] at hv
      exact allocated_of_value h key a parent hpar hv

theorem resolve_frame (h h2 : MapStore) (hfr : ∀ a, a < h.length → h2[a]? = h[a]?) :
    ∀ c : RefContext, c.allocated h = true → c.resolve h2 = c.resolve h
  | RefContext.background, _ => rfl
  | RefContext.withValue parent k v, hall => by
    cases v with
    | mapRef r =>
      cases r with
      | none =>
        simp only [RefContext.resolve, RefVal.resolve, MapStore.deref,
          resolve_frame h h2 hfr parent hall]
      | some b =>
        simp only [RefContext.allocated, Bool.and_eq_true, decide_eq_true_eq] at hall
        simp only [RefContext.resolve, RefVal.resolve, MapStore.deref, hfr b hall.1,
          resolve_frame h h2 hfr parent hall.2]
    | logger _ =>
      simp only [RefContext.resolve, RefVal.resolve, resolve_frame h h2 hfr parent hall]
    | span _ =>
      simp only [RefContext.resolve, RefVal.resolve, resolve_frame h h2 hfr parent hall]
    | any _ =>
      simp only [RefContext.resolve, RefVal.resolve, resolve_frame h h2 hfr parent hall]

theorem append_frame (h : MapStore) (m0 : FieldMap) :
    ∀ a, a < h.length → (h ++ [m0])[a]? = h[a]? :=
  fun _ ha => List.getElem?_append_left ha

theorem WithFieldsRef_refines (h : MapStore) (c : RefContext) (fields : Option Nat)
    (hall : c.allocated h = true) :
    ∃ (h2 : MapStore) (c2 : RefContext),
      WithFieldsRef h (some c) fields = some (h2, c2) ∧
      (∀ a, a < h.length → h2[a]? = h[a]?) ∧
      c2.resolve h2 = WithFields (some (c.resolve h)) (h.deref fields) := by
  by_cases hlen : (h.deref fields).len = 0
  · refine ⟨h, c, ?_, fun _ _ => rfl, ?_⟩
    · simp only [WithFieldsRef, hlen, if_true]
    · simp only [WithFields, hlen, if_true]
  · obtain ⟨f, fm, rfl, hf, hne⟩ : ∃ f fm, fields = some f ∧ h[f]? = some fm ∧
        fm.entries.length ≠ 0 := by
      cases fields with
      | none => exact absurd rfl hlen
      | some f =>
        cases hf : h[f]? with
        | none => simp [MapStore.deref, hf, GoMap.len] at hlen
        | some fm =>
          refine ⟨f, fm, rfl, hf, ?_⟩
          simpa [MapStore.deref, hf, GoMap.len] using hlen
    have hd : h.deref (some f) = some fm := hf
    have hlen2 : ¬ GoMap.len (some fm) = 0 := hne
    by_cases hex : ∃ a, c.Value CtxKey.logFieldsKey = some (RefVal.mapRef (some a))
    · obtain ⟨a, hv⟩ := hex
      have halt : a < h.length := allocated_of_value h _ a c hall hv
      have ha : h[a]? = some h[a] := List.getElem?_eq_getElem halt
      refine ⟨_, _, WithFieldsRef_copy h c f a fm h[a] hf hne hv ha, append_frame h _, ?_⟩
      have hvr : (c.resolve h).Value CtxKey.logFieldsKey
          = some (CtxVal.fields (some h[a])) := by
        rw [Value_resolve, hv]
        simp only [Option.map_some', RefVal.resolve, MapStore.deref, ha]
      simp only [RefContext.resolve, RefVal.resolve, MapStore.deref,
        List.getElem?_concat_length, resolve_frame h _ (append_frame h _) c hall]
      simp only [hf, WithFields, if_neg hlen2, hvr, GoMap.entries]
    · have hv : ∀ a, c.Value CtxKey.logFieldsKey ≠ some (RefVal.mapRef (some a)) :=
        fun a ha => hex ⟨a, ha⟩
      refine ⟨_, _, WithFieldsRef_fresh h c f fm hf hne hv, append_frame h _, ?_⟩
      have hbase : (match (c.resolve h).Value CtxKey.logFieldsKey with
          | some (CtxVal.fields (some m)) => some (assignAll ∅ m.entries)
          | _ => none) = (none : GoMap) := by
        rw [Value_resolve]
        cases hc : c.Value CtxKey.logFieldsKey with
        | none => rfl
        | some v =>
          cases v with
          | mapRef r =>
            cases r with
            | none => rfl
            | some a => exact absurd hc (hv a)
          | logger _ => rfl
          | span _ => rfl
          | any _ => rfl
      simp only [RefContext.resolve, RefVal.resolve, MapStore.deref,
        List.getElem?_concat_length, resolve_frame h _ (append_frame h _) c hall]
      simp only [hf, WithFields, if_neg hlen2, hbase, GoMap.entries]

/-- C11: `WithFields` is copy-on-write. Run on a store of map objects with a
context whose map references are allocated, it returns, every map object that
existed before the call is the same after it, and so the field map read from the
given context (and the whole context read in the store) is after the call what it
was before; the merged map of the context it returns is a new object. -/
theorem WithFields_copy_on_write (h : MapStore) (c : RefContext) (fields : Option Nat)
    (hall : c.allocated h = true) :
    ∃ (h2 : MapStore) (c2 : RefContext),
      WithFieldsRef h (some c) fields = some (h2, c2) ∧
      (∀ a, a < h.length → h2[a]? = h[a]?) ∧
      c.fieldMap h2 = c.fieldMap h ∧
      c.resolve h2 = c.resolve h ∧
      c2.resolve h2 = WithFields (some (c.resolve h)) (h.deref fields) := by
  obtain ⟨h2, c2, hrun, hfr, href⟩ := WithFieldsRef_refines h c fields hall
  have hres := resolve_frame h h2 hfr c hall
  refine ⟨h2, c2, hrun, hfr, ?_, hres, href⟩
  rw [← fieldMap_resolve, ← fieldMap_resolve, hres]

theorem WithFields_copy_on_write_witness :
    ∃ (h2 : MapStore) (c2 : RefContext),
      WithFieldsRef sampleStore (some sampleRefContext) (some 1) = some (h2, c2) ∧
      (∀ a, a < sampleStore.length → h2[a]? = sampleStore[a]?) ∧
      sampleRefContext.fieldMap h2 = sampleRefContext.fieldMap sampleStore ∧
      sampleRefContext.resolve h2 = sampleRefContext.resolve sampleStore ∧
      c2.resolve h2 = WithFields (some (sampleRefContext.resolve sampleStore))
        (sampleStore.deref (some 1)) :=
  WithFields_copy_on_write sampleStore sampleRefContext (some 1) (by decide)

/-! ## Further theorems on `SanitizeKV` -/

/-- C23, the claim as stated fails: in the input of length one holding the integer
123, index 0 is even and holds no string, and the output of `SanitizeKV` has
`"kv_error"` there, not the empty string. -/
theorem SanitizeKV_dangling_key_dropped :
    ([GoAny.int 123].get ⟨0, by decide⟩).isString = false ∧
    (SanitizeKV [GoAny.int 123]).map (fun out => out[0]?)
      = some (some (GoAny.str "kv_error")) := by
  decide

/-- C23, amended: for an input of any length and every even index `i` that has an
element after it, when the element at `i` is not a string the output of `SanitizeKV`
has the empty string at `i` and the element that followed at `i + 1`. -/
theorem SanitizeKV_non_string_key_any_length (kv : List GoAny) (i : Nat)
    (hi : i < kv.length) (hval : i + 1 < kv.length) (hev : i % 2 = 0)
    (hns : (kv[i]).isString = false) :
    ∃ out, SanitizeKV kv = some out ∧
      out[i]? = some (GoAny.str "") ∧
      out[i + 1]? = some kv[i + 1] := by
  obtain ⟨p, rfl⟩ : ∃ p, i = 2 * p := ⟨i / 2, by omega⟩
  have hlen := sanitizePairs_length kv
  refine ⟨_, SanitizeKV_eq kv, ?_, ?_⟩
  · rw [List.getElem?_append_left (by omega)]
    obtain ⟨_, e⟩ := sanitizePairs_get_even kv (2 * p) hev hval
    rw [e, keyString_of_not_isString _ hns]
  · rw [List.getElem?_append_left (by omega), sanitizePairs_val p kv hval,
      List.getElem?_eq_getElem hval]

theorem SanitizeKV_non_string_key_any_length_witness :
    ∃ out, SanitizeKV [GoAny.int 7, GoAny.str "v", GoAny.str "dangling"] = some out ∧
      out[0]? = some (GoAny.str "") ∧
      out[0 + 1]? = some [GoAny.int 7, GoAny.str "v", GoAny.str "dangling"][0 + 1] :=
  SanitizeKV_non_string_key_any_length [GoAny.int 7, GoAny.str "v", GoAny.str "dangling"] 0
    (by decide) (by decide) (by decide) (by decide)

/-- C24: `SanitizeKV` is idempotent: what it returns for an input it returns again,
element for element, when run on that output. -/
theorem SanitizeKV_idempotent (kv : List GoAny) :
    ∃ out, SanitizeKV kv = some out ∧ SanitizeKV out = some out := by
  obtain ⟨out, hout, hwf⟩ := wellFormedKV_SanitizeKV kv
  refine ⟨out, hout, ?_⟩
  rw [SanitizeKV_eq, if_neg (by have := hwf.1; omega), List.append_nil,
    sanitizePairs_eq_self out hwf.1 hwf.2]

/-! ## Theorems on construction, the registry and repeated `For` -/

theorem New_never_nil (opts : List ConfigOption) : ∃ l, New opts = some (Logger.slog l) :=
  ⟨_, rfl⟩

/-- C22: for every option list `MustInitDefault` returns, without reaching its
panic, the logger `New` returns for the same options, and that logger is not
nil. -/
theorem MustInitDefault_eq_New (opts : List ConfigOption) :
    ∃ l, New opts = some (Logger.slog l) ∧
      MustInitDefault opts = Except.ok (some (Logger.slog l)) ∧
      MustInitDefault opts = Except.ok (New opts) ∧
      MustInitDefault opts ≠ Except.error "logger initialization failed" := by
  obtain ⟨l, hl⟩ := New_never_nil opts
  have h : MustInitDefault opts = Except.ok (some (Logger.slog l)) := by
    simp only [MustInitDefault, hl]
  refine ⟨l, hl, h, by rw [h, hl], ?_⟩
  rw [h]
  exact fun e => Except.noConfusion e

theorem WithFields_value_other_key (ctx : Option Context) (fields : GoMap) (key : CtxKey)
    (hkey : key ≠ CtxKey.logFieldsKey) :
    (WithFields ctx fields).Value key
      = match ctx with
        | some c => c.Value key
        | none => none := by
  by_cases hlen : fields.len = 0
  · cases ctx with
    | none => simp only [WithFields, hlen, if_true, Context.Value]
    | some c => simp only [WithFields, hlen, if_true]
  · cases ctx with
    | none => simp only [WithFields, if_neg hlen, Context.Value, if_neg hkey]
    | some c => simp only [WithFields, if_neg hlen, Context.Value, if_neg hkey]

/-- C25: the field store and the logger registry do not interfere. `FromContext`
returns for `WithFields(ctx, fields)` what it returns for `ctx`; the field map of
`IntoContext(ctx, l)` is that of `ctx` (none for the nil context), and `For` of a
default logger returns for `IntoContext(ctx, l)` what it returns for `ctx`. -/
theorem registry_and_fields_independent (ctx : Option Context) (fields : GoMap)
    (l : Option Logger) (l0 : slogLogger) :
    FromContext (some (WithFields ctx fields)) = FromContext ctx ∧
    (IntoContext ctx l).fieldMap
      = (match ctx with
        | some c => c.fieldMap
        | none => none) ∧
    l0.For (some (IntoContext ctx l)) = l0.For ctx := by
  have hne : CtxKey.loggerKey ≠ CtxKey.logFieldsKey := by decide
  have hne2 : CtxKey.logFieldsKey ≠ CtxKey.loggerKey := by decide
  refine ⟨?_, ?_, ?_⟩
  · have hv := WithFields_value_other_key ctx fields CtxKey.loggerKey hne
    cases ctx with
    | none =>
      simp only at hv
      simp only [FromContext, hv]
    | some c =>
      simp only at hv
      simp only [FromContext, hv]
  · cases ctx with
    | none => simp only [IntoContext, Context.fieldMap, Context.Value, if_neg hne2]
    | some c => simp only [IntoContext, Context.fieldMap, Context.Value, if_neg hne2]
  · cases ctx with
    | none => simp only [slogLogger.For, IntoContext, Context.Value, if_neg hne2]
    | some c => simp only [slogLogger.For, IntoContext, Context.Value, if_neg hne2]

theorem For_fresh (l : slogLogger) (c : Context) (m : FieldMap)
    (hm : c.fieldMap = some m) (hne : m.entries ≠ []) :
    l.For (some c) = ForResult.fresh
      ⟨⟨l.core.level, l.core.addSource, l.core.pretty, l.core.writer,
        l.core.attrs ++ m.entries.map entryAttr⟩, l.svc⟩ := by
  have hv : c.Value CtxKey.logFieldsKey = some (CtxVal.fields (some m)) := by
    unfold Context.fieldMap at hm
    cases hv : c.Value CtxKey.logFieldsKey with
    | none => rw [hv] at hm; simp at hm
    | some v =>
      cases v with
      | fields m2 => rw [hv] at hm; simp only at hm; rw [hm]
      | logger _ => rw [hv] at hm; simp at hm
      | span _ => rw [hv] at hm; simp at hm
      | any _ => rw [hv] at hm; simp at hm
  have hpos : 0 < m.entries.length := List.length_pos.mpr hne
  have hargs : (fieldArgs m.entries).length ≠ 0 := by
    rw [fieldArgs_length]; omega
  simp only [slogLogger.For, hv, GoMap.len, GoMap.entries, gt_iff_lt, hpos, if_true,
    SlogCore.With, if_neg hargs, argsToAttrs_fieldArgs]

theorem count_entryAttr (m : FieldMap) (e : Sigma fun _ : String => GoAny)
    (he : e ∈ m.entries) : (m.entries.map entryAttr).count (entryAttr e) = 1 := by
  have hkeys : ((m.entries.map entryAttr).map Attr.key).Nodup := by
    rw [List.map_map]
    exact m.nodupKeys
  have hnd : (m.entries.map entryAttr).Nodup := List.Nodup.of_map Attr.key hkeys
  exact List.count_eq_one_of_mem hnd (List.mem_map_of_mem entryAttr he)

/-- C26: for a context carrying a non-empty field map `m`, `For` applied twice
gives a logger whose base attributes are those of `l` followed by the attributes
of the entries of `m` and then by the same attributes again: every entry of `m`
occurs two more times than among the attributes of `l`, and the second application
returns a logger other than the one it was applied to. -/
theorem For_twice_binds_twice (l : slogLogger) (c : Context) (m : FieldMap)
    (hm : c.fieldMap = some m) (hne : m.entries ≠ []) :
    ∃ l1 l2 : slogLogger,
      l.For (some c) = ForResult.fresh l1 ∧
      l1.For (some c) = ForResult.fresh l2 ∧
      l2.core.attrs
        = l.core.attrs ++ m.entries.map entryAttr ++ m.entries.map entryAttr ∧
      (∀ e ∈ m.entries,
        l2.core.attrs.count (entryAttr e) = l.core.attrs.count (entryAttr e) + 2) ∧
      l2 ≠ l1 := by
  refine ⟨_, _, For_fresh l c m hm hne, For_fresh _ c m hm hne, rfl, ?_, ?_⟩
  · intro e he
    simp only [List.count_append, count_entryAttr m e he]
  · intro heq
    have hattrs := congrArg (fun x : slogLogger => x.core.attrs.length) heq
    simp only [List.length_append, List.length_map] at hattrs
    have hpos : 0 < m.entries.length := List.length_pos.mpr hne
    omega

theorem For_twice_binds_twice_witness :
    ∃ l1 l2 : slogLogger,
      sampleLogger.For (some sampleContext) = ForResult.fresh l1 ∧
      l1.For (some sampleContext) = ForResult.fresh l2 ∧
      l2.core.attrs
        = sampleLogger.core.attrs ++ sampleFields.entries.map entryAttr
          ++ sampleFields.entries.map entryAttr ∧
      (∀ e ∈ sampleFields.entries,
        l2.core.attrs.count (entryAttr e)
          = sampleLogger.core.attrs.count (entryAttr e) + 2) ∧
      l2 ≠ l1 :=
  For_twice_binds_twice sampleLogger sampleContext sampleFields rfl (by decide)

/-! ## Theorems on `applyOptions` -/

theorem applyOptions_eq_foldl (opts : List ConfigOption) :
    applyOptions opts = writerOrStdout (opts.foldl applyOne defaultConfig) := rfl

theorem getLast?_cons_getD {α : Type} (a d : α) (l : List α) :
    ((a :: l).getLast?).getD d = (l.getLast?).getD a := by
  induction l generalizing a d with
  | nil => rfl
  | cons b t ih => rw [List.getLast?_cons_cons, ih b d, ih b a]

theorem lastSet_cons_some {α : Type} (f : StdOption → Option α) (o : StdOption)
    (t : List StdOption) (a d : α) (h : f o = some a) :
    (lastSet f (o :: t)).getD d = (lastSet f t).getD a := by
  unfold lastSet
  rw [List.filterMap_cons_some h, getLast?_cons_getD]

theorem lastSet_cons_none {α : Type} (f : StdOption → Option α) (o : StdOption)
    (t : List StdOption) (h : f o = none) : lastSet f (o :: t) = lastSet f t := by
  unfold lastSet
  rw [List.filterMap_cons_none h]

theorem foldl_applyOne_std (os : List StdOption) : ∀ cfg : Config,
    (os.map StdOption.toOption).foldl applyOne cfg
      = { Service := (lastSet StdOption.service? os).getD cfg.Service,
          Level := (lastSet StdOption.level? os).getD cfg.Level,
          Pretty := (lastSet StdOption.pretty? os).getD cfg.Pretty,
          WithCaller := (lastSet StdOption.caller? os).getD cfg.WithCaller,
          Writer := (lastSet StdOption.writer? os).getD cfg.Writer } := by
  induction os with
  | nil => intro cfg; rfl
  | cons o t ih =>
    intro cfg
    rw [List.map_cons, List.foldl_cons, ih]
    cases o with
    | service n =>
      rw [lastSet_cons_some StdOption.service? (StdOption.service n) t n _ rfl,
        lastSet_cons_none StdOption.level? (StdOption.service n) t rfl,
        lastSet_cons_none StdOption.pretty? (StdOption.service n) t rfl,
        lastSet_cons_none StdOption.caller? (StdOption.service n) t rfl,
        lastSet_cons_none StdOption.writer? (StdOption.service n) t rfl]
      rfl
    | level lv =>
      rw [lastSet_cons_none StdOption.service? (StdOption.level lv) t rfl,
        lastSet_cons_some StdOption.level? (StdOption.level lv) t lv _ rfl,
        lastSet_cons_none StdOption.pretty? (StdOption.level lv) t rfl,
        lastSet_cons_none StdOption.caller? (StdOption.level lv) t rfl,
        lastSet_cons_none StdOption.writer? (StdOption.level lv) t rfl]
      rfl
    | pretty b =>
      rw [lastSet_cons_none StdOption.service? (StdOption.pretty b) t rfl,
        lastSet_cons_none StdOption.level? (StdOption.pretty b) t rfl,
        lastSet_cons_some StdOption.pretty? (StdOption.pretty b) t b _ rfl,
        lastSet_cons_none StdOption.caller? (StdOption.pretty b) t rfl,
        lastSet_cons_none StdOption.writer? (StdOption.pretty b) t rfl]
      rfl
    | caller b =>
      rw [lastSet_cons_none StdOption.service? (StdOption.caller b) t rfl,
        lastSet_cons_none StdOption.level? (StdOption.caller b) t rfl,
        lastSet_cons_none StdOption.pretty? (StdOption.caller b) t rfl,
        lastSet_cons_some StdOption.caller? (StdOption.caller b) t b _ rfl,
        lastSet_cons_none StdOption.writer? (StdOption.caller b) t rfl]
      rfl
    | writer w =>
      rw [lastSet_cons_none StdOption.service? (StdOption.writer w) t rfl,
        lastSet_cons_none StdOption.level? (StdOption.writer w) t rfl,
        lastSet_cons_none StdOption.pretty? (StdOption.writer w) t rfl,
        lastSet_cons_none StdOption.caller? (StdOption.writer w) t rfl,
        lastSet_cons_some StdOption.writer? (StdOption.writer w) t w _ rfl]
      rfl
    | nil =>
      rw [lastSet_cons_none StdOption.service? StdOption.nil t rfl,
        lastSet_cons_none StdOption.level? StdOption.nil t rfl,
        lastSet_cons_none StdOption.pretty? StdOption.nil t rfl,
        lastSet_cons_none StdOption.caller? StdOption.nil t rfl,
        lastSet_cons_none StdOption.writer? StdOption.nil t rfl]
      rfl

/-- C21: `applyOptions` folds the options from left to right over the defaults and
then reads a nil writer as the standard output. With no options it returns the
defaults; for a list of the options of the package, every field has the value of
the last option of the list that sets this field and its default if there is none
(a writer last set to nil is the standard output), so an option changes no field
but its own and a later option overrides an earlier one; a nil option anywhere in
a list changes nothing. -/
theorem applyOptions_spec (os : List StdOption) (a b : List ConfigOption) :
    applyOptions [] = ⟨"", "info", false, false, some Writer.stdout⟩ ∧
    applyOptions a = writerOrStdout (a.foldl applyOne defaultConfig) ∧
    applyOptions (os.map StdOption.toOption)
      = { Service := (lastSet StdOption.service? os).getD "",
          Level := (lastSet StdOption.level? os).getD "info",
          Pretty := (lastSet StdOption.pretty? os).getD false,
          WithCaller := (lastSet StdOption.caller? os).getD false,
          Writer := some (match lastSet StdOption.writer? os with
            | some (some w) => w
            | _ => Writer.stdout) } ∧
    applyOptions (a ++ none :: b) = applyOptions (a ++ b) := by
  refine ⟨rfl, rfl, ?_, ?_⟩
  · rw [applyOptions_eq_foldl, foldl_applyOne_std]
    unfold writerOrStdout
    cases hw : lastSet StdOption.writer? os with
    | none => simp [defaultConfig]
    | some w =>
      cases w with
      | none => simp [defaultConfig]
      | some w2 => simp [defaultConfig]
  · rw [applyOptions_eq_foldl, applyOptions_eq_foldl, List.foldl_append, List.foldl_append,
      List.foldl_cons]
    rfl

end ScgLogger
